import Mathlib

/-!
Shallow embedding of the human-style strategy solver of this sudoku crate:
`src/bitset.rs` (fixed-capacity bitsets) and `src/strategy/solver.rs`
(the `StrategySolver` driver, caches and strategy routines).

Conventions of the embedding:
* machine-integer bitmasks become `Nat` (storage widths are at most 128
  bits — `u128` for cell sets — so bit loops use 128 steps);
* `&mut self` methods returning `Result<(), Unsolvable>` become functions
  `StrategySolver → StrategySolver × Bool`, where the returned solver is the
  (possibly partially) mutated state and the `Bool` is `true` for `Ok`;
  this keeps the partial mutations that Rust leaves behind on an `Err`;
* Rust `loop`s whose termination rests on global invariants take an explicit
  fuel argument; call sites pass a bound that dominates the number of
  iterations the Rust loop can make (justified in comments);
* the board algebra (`src/board.rs`) and the strategy enum with its dispatch
  (`src/strategy/strategies.rs`) are not part of the provided sources; the
  definitions below that replace them are modelled from the spec and say so
  in their doc comments.
-/

namespace SudokuSpec

/-! ## Bitsets (src/bitset.rs) -/

/-- `count_ones` of the backing integer (`Set::len`).  The sources back sets
by integers of width at most 128, so 128 halving steps always suffice. -/
def setLenAux : Nat → Nat → Nat
  | 0, _ => 0
  | fuel+1, m => if m = 0 then 0 else m % 2 + setLenAux fuel (m / 2)

def setLen (m : Nat) : Nat := setLenAux 128 m

/-- Trailing-zero count: the index of the lowest set bit, as extracted by the
`Iter` implementation via `x & (!x + 1)` and `trailing_zeros`. -/
def ctzAux : Nat → Nat → Nat
  | 0, _ => 0
  | fuel+1, m => if m % 2 = 1 then 0 else ctzAux fuel (m / 2) + 1

def ctz (m : Nat) : Nat := ctzAux 128 m

/-- One step of the bitset iterator: lowest set bit index together with the
mask with that bit cleared (`self.0 ^= lowest_bit`). -/
def setNext (m : Nat) : Option (Nat × Nat) :=
  if m = 0 then none else some (ctz m, m ^^^ (1 <<< ctz m))

/-- `Set::without`: `self.0 & !other.0`.  On the fixed-width storage
`a & !b` has bits `a_i ∧ ¬ b_i`, which equals `a &&& (a ^^^ b)` on `Nat`. -/
def setWithout (a b : Nat) : Nat := a &&& (a ^^^ b)

/-- `Set::overlaps`: `self & other != NONE`. -/
def setOverlaps (a b : Nat) : Bool := a &&& b != 0

/-- `Set::is_empty`: `self.len() == 0`. -/
def setIsEmpty (m : Nat) : Bool := setLen m == 0

/-- The `Zero` error of `Set::unique` on the empty set. -/
inductive Zero
  | zero
deriving DecidableEq

/-- `Set::unique`: `Ok(Some(first))` on singletons, `Err(Zero)` on the empty
set, `Ok(None)` otherwise; the extracted element is the iterator's first,
i.e. the lowest set index. -/
def setUnique (m : Nat) : Except Zero (Option Nat) :=
  match setLen m with
  | 1 => .ok (some (ctz m))
  | 0 => .error .zero
  | _ => .ok none

/-- `Set::one_possibility`: first element of the iterator (callers guarantee
the mask is non-empty). -/
def setOnePossibility (m : Nat) : Nat := ctz m

/-- Elements of a mask in ascending index order, the order the bitset
iterator produces for in-range masks; `width` is the universe size. -/
def setElems (width m : Nat) : List Nat :=
  (List.range width).filter (fun i => m.testBit i)

/-- Digits (1..9) of a 9-bit digit mask, ascending (`Digit::from_index`). -/
def digitsOf (m : Nat) : List Nat := (setElems 9 m).map (· + 1)

/-- Universe mask for digit sets and position sets: 9 bits (0o777). -/
def DIGIT_ALL : Nat := 511

def POS_ALL : Nat := 511

/-- `Line::ALL_ROWS` (lines 0..8) and `Line::ALL_COLS` (lines 9..17) of the
18-bit line mask (0o777 and 0o777000). -/
def ALL_ROWS : Nat := 511

def ALL_COLS : Nat := 511 <<< 9

/-! ## Board algebra

Modelled from the spec: `src/board.rs` is not among the provided sources.
The spec fixes cells 0..80 in row-major order, houses as 27 groupings
(9 rows, 9 cols, 9 blocks), positional forms `row_pos`/`col_pos`/`block_pos`
in 0..8, and the 20-cell neighbourhood of a cell.  House indices follow the
crate's `ROW_OFFSET`/`COL_OFFSET`/`FIELD_OFFSET` layout visible in
`src/sudoku.rs`: rows 0..8, cols 9..17, blocks 18..26. -/

def rowOf (c : Nat) : Nat := c / 9

def colOf (c : Nat) : Nat := c % 9

def blockOf (c : Nat) : Nat := 3 * (c / 27) + (c % 9) / 3

def rowHouse (c : Nat) : Nat := rowOf c

def colHouse (c : Nat) : Nat := 9 + colOf c

def blockHouse (c : Nat) : Nat := 18 + blockOf c

/-- Modelled from the spec: `row_pos()` ∈ 0..8 is the position of the cell
inside its row, and symmetrically for `col_pos()` and `block_pos()`. -/
def rowPosOf (c : Nat) : Nat := c % 9

def colPosOf (c : Nat) : Nat := c / 9

def blockPosOf (c : Nat) : Nat := 3 * ((c / 9) % 3) + (c % 9) % 3

/-- Modelled from the spec: `House::cells()`, the 9 cells of a house in
canonical order. -/
def houseCells (h : Nat) : List Nat :=
  if h < 9 then (List.range 9).map (fun p => 9 * h + p)
  else if h < 18 then (List.range 9).map (fun p => 9 * p + (h - 9))
  else (List.range 9).map (fun p =>
    27 * ((h - 18) / 3) + 3 * ((h - 18) % 3) + 9 * (p / 3) + p % 3)

/-- Modelled from the spec: `House::cell_at(pos)`, inverse of the positional
forms. -/
def houseCellAt (h p : Nat) : Nat := (houseCells h).getD p 0

/-- Modelled from the spec: `House::categorize()` — Row / Col / Block tag,
encoded 0 / 1 / 2. -/
def houseCategory (h : Nat) : Nat := h / 9

/-- Modelled from the spec: the three houses of a cell. -/
def housesOf (c : Nat) : List Nat := [rowHouse c, colHouse c, blockHouse c]

/-- Modelled from the spec: `Cell::neighbors()`, the 20 distinct cells
sharing a row, column or block with `c`, in ascending cell order. -/
def neighbors (c : Nat) : List Nat :=
  (List.range 81).filter (fun d =>
    d != c && (rowOf d == rowOf c || colOf d == colOf c || blockOf d == blockOf c))

/-- Modelled from the spec: the cell of line `l` (rows 0..8, cols 9..17) at
position `p` within the line. -/
def lineCellAt (l p : Nat) : Nat := if l < 9 then 9 * l + p else 9 * p + (l - 9)

/-- Modelled from the spec: the 3 cells of miniline `i` (0..8, chute-line
major: `i / 3` is the chute line, `i % 3` the chute field) of chute `t`
(bands 0..2, stacks 3..5). -/
def minilineCells (t i : Nat) : List Nat :=
  let l := i / 3
  let f := i % 3
  if t < 3 then (List.range 3).map (fun k => 9 * (3 * t + l) + 3 * f + k)
  else (List.range 3).map (fun k => 9 * (3 * f + k) + (3 * (t - 3) + l))

/-- Modelled from the spec: the two line-neighbours of miniline `i` inside its
chute (same chute line, the other two chute fields). -/
def minilineLineNeighbors (i : Nat) : List Nat :=
  ((List.range 3).filter (fun f2 => f2 != i % 3)).map (fun f2 => 3 * (i / 3) + f2)

/-- Modelled from the spec: the two field-neighbours of miniline `i` inside
its chute (same chute field, the other two chute lines). -/
def minilineFieldNeighbors (i : Nat) : List Nat :=
  ((List.range 3).filter (fun l2 => l2 != i / 3)).map (fun l2 => 3 * l2 + i % 3)

/-! ## Value objects and solver state (src/strategy/solver.rs) -/

/-- A `(cell, digit)` pair; digits are stored 1..9 as in `Digit::get`. -/
structure Candidate where
  cell : Nat
  digit : Nat
deriving DecidableEq, Repr

/-- `Candidate::digit_set()`: singleton digit mask. -/
def Candidate.digit_set (c : Candidate) : Nat := 1 <<< (c.digit - 1)

/-- The deduction record (src/strategy/deduction.rs is not among the provided
sources; the payload shapes follow the spec §6: candidate payloads for the
single-placement variants, and house / digit-mask / position-mask payloads
with a half-open range into `eliminated_entries` for the elimination
techniques). -/
inductive Deduction where
  | Given : Candidate → Deduction
  | NakedSingles : Candidate → Deduction
  | HiddenSingles : Candidate → Nat → Deduction
  | LockedCandidates : Nat → Nat → Nat × Nat → Deduction
  | NakedSubsets : Nat → Nat → Nat → Nat × Nat → Deduction
  | HiddenSubsets : Nat → Nat → Nat → Nat × Nat → Deduction
  | BasicFish : Nat → Nat → Nat → Nat × Nat → Deduction
  | SinglesChain : Nat → Nat × Nat → Deduction
deriving DecidableEq, Repr

/-- The `State<T>` wrapper: cached state plus the two watermarks into the
placement / elimination logs. -/
structure StateW (α : Type) where
  next_deduced : Nat
  last_eliminated : Nat
  state : α
deriving DecidableEq, Repr

def StateW.from (a : α) : StateW α := ⟨0, 0, a⟩

/-- The solver.  `grid` is the 81-entry digit list (0 = empty); the three
caches are the per-cell digit masks, per-house solved-digit masks and
per-house per-digit position masks. -/
structure StrategySolver where
  deductions : List Deduction
  deduced_entries : List Candidate
  eliminated_entries : List Candidate
  n_solved : Nat
  grid : StateW (List Nat)
  cell_poss_digits : StateW (List Nat)
  house_solved_digits : StateW (List Nat)
  house_poss_positions : StateW (List (List Nat))
deriving DecidableEq, Repr

/-- The extracted `Deductions` record handed over by `solve`. -/
structure Deductions where
  deductions : List Deduction
  deduced_entries : List Candidate
  eliminated_entries : List Candidate
deriving DecidableEq, Repr

/-- `CellState` as reported by `grid_state` / `cell_state`. -/
inductive CellState where
  | Digit : Nat → CellState
  | Candidates : Nat → CellState
deriving DecidableEq, Repr

/-- Cell-possibility mask of a cell (indexing `cell_poss_digits.state`). -/
def cpAt (s : StrategySolver) (cell : Nat) : Nat :=
  s.cell_poss_digits.state.getD cell 0

/-- Solved-digit mask of a house (indexing `house_solved_digits.state`). -/
def hsAt (s : StrategySolver) (h : Nat) : Nat :=
  s.house_solved_digits.state.getD h 0

/-- Position mask of `house_poss_positions[h][digit]` (digits 1..9). -/
def hppAt (s : StrategySolver) (h d : Nat) : Nat :=
  (s.house_poss_positions.state.getD h []).getD (d - 1) 0

def hppSet (a : List (List Nat)) (h d v : Nat) : List (List Nat) :=
  a.set h ((a.getD h []).set (d - 1) v)

/-- Sequencing in the `Result<(), Unsolvable>` monad over threaded state:
run the continuation only on `Ok`, keeping the mutated state on `Err`. -/
def andThen (r : StrategySolver × Bool) (k : StrategySolver → StrategySolver × Bool) :
    StrategySolver × Bool :=
  if r.2 then k r.1 else r

/-! ## Driver basics -/

/-- `StrategySolver::from_sudoku`: seed `deduced_entries` with the givens,
logs otherwise empty, grid all zero, caches all-candidates / none-placed,
`n_solved = 0`. -/
def from_sudoku (p : List Nat) : StrategySolver where
  deductions := []
  deduced_entries :=
    p.enum.filterMap (fun x => if x.2 = 0 then none else some ⟨x.1, x.2⟩)
  eliminated_entries := []
  n_solved := 0
  grid := StateW.from (List.replicate 81 0)
  cell_poss_digits := StateW.from (List.replicate 81 DIGIT_ALL)
  house_solved_digits := StateW.from (List.replicate 27 0)
  house_poss_positions := StateW.from (List.replicate 27 (List.replicate 9 DIGIT_ALL))

/-- `StrategySolver::update_grid`: write every entry of `deduced_entries`
into the grid. -/
def update_grid (s : StrategySolver) : StrategySolver :=
  { s with
    grid := { s.grid with
      state := s.deduced_entries.foldl (fun g c => g.set c.cell c.digit) s.grid.state } }

/-- `StrategySolver::to_sudoku`: refresh the grid and return it (the method
takes `&mut self`, so the refreshed solver is returned alongside). -/
def to_sudoku (s : StrategySolver) : List Nat × StrategySolver :=
  let s := update_grid s
  (s.grid.state, s)

/-- `StrategySolver::is_solved`: `n_solved == 81`. -/
def is_solved (s : StrategySolver) : Bool := s.n_solved == 81

/-- `StrategySolver::into_deductions`. -/
def into_deductions (s : StrategySolver) : Deductions :=
  ⟨s.deductions, s.deduced_entries, s.eliminated_entries⟩

/-- `StrategySolver::push_new_candidate`: skip if the cell already holds the
same digit, conflict (`Err`) on a different digit, otherwise write the grid
and append to `deduced_entries` and `deductions`. -/
def push_new_candidate (s : StrategySolver) (c : Candidate) (strat : Deduction) :
    StrategySolver × Bool :=
  let old := s.grid.state.getD c.cell 0
  if old = c.digit then (s, true)
  else if old = 0 then
    ({ s with
        grid := { s.grid with state := s.grid.state.set c.cell c.digit }
        deduced_entries := s.deduced_entries ++ [c]
        deductions := s.deductions ++ [strat] }, true)
  else (s, false)

/-- `StrategySolver::insert_candidate`: refresh the grid, then push the
candidate as a `Given`; `Err(Unsolvable)` is mapped to a plain failure. -/
def insert_candidate (s : StrategySolver) (c : Candidate) : Bool × StrategySolver :=
  let s := update_grid s
  let r := push_new_candidate s c (Deduction.Given c)
  (r.2, r.1)

/-! ## Cache maintenance: cell possibilities and house solved digits -/

/-- `StrategySolver::remove_impossibilities`: subtract `impossible` from the
cell's mask; in `find_naked_singles` mode push the naked single (an empty
mask raises `Zero`, converted to `Unsolvable`), otherwise fail on an empty
mask. -/
def remove_impossibilities (s : StrategySolver) (cell impossible : Nat)
    (find_naked_singles : Bool) : StrategySolver × Bool :=
  let mask := setWithout (cpAt s cell) impossible
  let s := { s with
    cell_poss_digits := { s.cell_poss_digits with
      state := s.cell_poss_digits.state.set cell mask } }
  if find_naked_singles then
    match setUnique mask with
    | .error _ => (s, false)
    | .ok none => (s, true)
    | .ok (some idx) =>
      let c : Candidate := ⟨cell, idx + 1⟩
      push_new_candidate s c (Deduction.NakedSingles c)
  else
    if setIsEmpty mask then (s, false) else (s, true)

/-- `StrategySolver::_insert_candidate_cp_zs`: count the placement, clear the
cell's candidate mask and set the digit in its three houses. -/
def insert_candidate_cp_zs (c : Candidate) (s : StrategySolver) : StrategySolver :=
  { s with
    n_solved := s.n_solved + 1
    cell_poss_digits := { s.cell_poss_digits with
      state := s.cell_poss_digits.state.set c.cell 0 }
    house_solved_digits := { s.house_solved_digits with
      state :=
        let a := s.house_solved_digits.state
        let a := a.set (rowHouse c.cell) (a.getD (rowHouse c.cell) 0 ||| c.digit_set)
        let a := a.set (colHouse c.cell) (a.getD (colHouse c.cell) 0 ||| c.digit_set)
        a.set (blockHouse c.cell) (a.getD (blockHouse c.cell) 0 ||| c.digit_set) } }

/-- The elimination pass of `_update_cell_poss_house_solved`: apply each not
yet consumed elimination to the cell masks (the eliminated log itself does
not grow during this pass, so the pending slice is iterated as a list). -/
def elimApplyLoop (elims : List Candidate) (fns : Bool) (s : StrategySolver) :
    StrategySolver × Bool :=
  match elims with
  | [] => (s, true)
  | c :: rest =>
    andThen (remove_impossibilities s c.cell c.digit_set fns) (elimApplyLoop rest fns)

/-- The entry-consuming loop of `batch_insert_entries`.  The fuel dominates
the number of pending entries (the loop never pushes, so
`deduced_entries.length` steps always suffice). -/
def batchConsumeLoop : Nat → StrategySolver → StrategySolver × Bool
  | 0, s => (s, true)
  | fuel+1, s =>
    if s.deduced_entries.length ≤ s.cell_poss_digits.next_deduced then (s, true)
    else
      let c := s.deduced_entries.getD s.cell_poss_digits.next_deduced ⟨0, 0⟩
      let s := { s with
        cell_poss_digits := { s.cell_poss_digits with
          next_deduced := s.cell_poss_digits.next_deduced + 1 }
        house_solved_digits := { s.house_solved_digits with
          next_deduced := s.house_solved_digits.next_deduced + 1 } }
      if setIsEmpty (cpAt s c.cell) then batchConsumeLoop fuel s
      else if setOverlaps (hsAt s (rowHouse c.cell)) c.digit_set
          || setOverlaps (hsAt s (colHouse c.cell)) c.digit_set
          || setOverlaps (hsAt s (blockHouse c.cell)) c.digit_set then (s, false)
      else batchConsumeLoop fuel (insert_candidate_cp_zs c s)

/-- The per-cell pass of `batch_insert_entries`: recompute each unsolved
cell's mask from the solved-digit masks of its three houses. -/
def batchCellsLoop (cells : List Nat) (fns : Bool) (s : StrategySolver) :
    StrategySolver × Bool :=
  match cells with
  | [] => (s, true)
  | cell :: rest =>
    if setIsEmpty (cpAt s cell) then batchCellsLoop rest fns s
    else
      let housesMask := hsAt s (rowHouse cell) ||| hsAt s (colHouse cell)
          ||| hsAt s (blockHouse cell)
      andThen (remove_impossibilities s cell housesMask fns) (batchCellsLoop rest fns)

/-- `StrategySolver::batch_insert_entries`. -/
def batch_insert_entries (fns : Bool) (s : StrategySolver) : StrategySolver × Bool :=
  andThen (batchConsumeLoop s.deduced_entries.length s)
    (batchCellsLoop (List.range 81) fns)

/-- The neighbour pass of `insert_entries_singly`. -/
def singlyNeighborsLoop (cells : List Nat) (mask : Nat) (fns : Bool)
    (s : StrategySolver) : StrategySolver × Bool :=
  match cells with
  | [] => (s, true)
  | cell :: rest =>
    if setOverlaps mask (cpAt s cell) then
      andThen (remove_impossibilities s cell mask fns) (singlyNeighborsLoop rest mask fns)
    else singlyNeighborsLoop rest mask fns s

/-- The loop of `StrategySolver::insert_entries_singly`.  Each iteration
advances the watermark by one; the watermark never exceeds the log length
and within one call the log grows by at most one entry per naked single (a
grid cell flips from 0 to a digit on every push), so
`deduced_entries.length + 81` iterations dominate the Rust loop. -/
def singlyLoop : Nat → Bool → StrategySolver → StrategySolver × Bool
  | 0, _, s => (s, true)
  | fuel+1, fns, s =>
    if s.deduced_entries.length ≤ s.cell_poss_digits.next_deduced then (s, true)
    else
      let c := s.deduced_entries.getD s.cell_poss_digits.next_deduced ⟨0, 0⟩
      let s := { s with
        cell_poss_digits := { s.cell_poss_digits with
          next_deduced := s.cell_poss_digits.next_deduced + 1 }
        house_solved_digits := { s.house_solved_digits with
          next_deduced := s.house_solved_digits.next_deduced + 1 } }
      if setIsEmpty (cpAt s c.cell) then singlyLoop fuel fns s
      else if setIsEmpty (cpAt s c.cell &&& c.digit_set) then (s, false)
      else
        let s := insert_candidate_cp_zs c s
        andThen (singlyNeighborsLoop (neighbors c.cell) c.digit_set fns s)
          (fun s =>
            if 4 < s.deduced_entries.length - s.cell_poss_digits.next_deduced then (s, true)
            else singlyLoop fuel fns s)

/-- `StrategySolver::insert_entries_singly`. -/
def insert_entries_singly (fns : Bool) (s : StrategySolver) : StrategySolver × Bool :=
  singlyLoop (s.deduced_entries.length + 81) fns s

/-- The driving loop of `StrategySolver::insert_entries`: choose singly
insertion while 1..4 entries are pending, batch insertion otherwise.  Each
iteration consumes at least one pending entry and the log grows by at most
81 fresh placements, so `deduced_entries.length + 82` iterations dominate. -/
def insertLoop : Nat → Bool → StrategySolver → StrategySolver × Bool
  | 0, _, s => (s, true)
  | fuel+1, fns, s =>
    match s.deduced_entries.length - s.cell_poss_digits.next_deduced with
    | 0 => (s, true)
    | 1 | 2 | 3 | 4 => andThen (insert_entries_singly fns s) (insertLoop fuel fns)
    | _ => andThen (batch_insert_entries fns s) (insertLoop fuel fns)

/-- `StrategySolver::insert_entries`: always start with one batch pass, then
loop by pending count. -/
def insert_entries (fns : Bool) (s : StrategySolver) : StrategySolver × Bool :=
  andThen (batch_insert_entries fns s)
    (fun s => insertLoop (s.deduced_entries.length + 82) fns s)

/-- `StrategySolver::_update_cell_poss_house_solved`: apply the pending
eliminations (advancing `last_eliminated` only after the full pass, as the
source assigns it after the loop), then insert the pending placements. -/
def update_cell_poss_house_solved (fns : Bool) (s : StrategySolver) :
    StrategySolver × Bool :=
  andThen
    (elimApplyLoop (s.eliminated_entries.drop s.cell_poss_digits.last_eliminated) fns s)
    (fun s =>
      let s := { s with
        cell_poss_digits := { s.cell_poss_digits with
          last_eliminated := s.eliminated_entries.length } }
      insert_entries fns s)

/-! ## Cache maintenance: house possible positions -/

/-- Elimination pass of `update_house_poss_positions`. -/
def hppElimLoop (elims : List Candidate) (a : List (List Nat)) : List (List Nat) :=
  match elims with
  | [] => a
  | c :: rest =>
    let a := hppSet a (rowHouse c.cell) c.digit
      (setWithout ((a.getD (rowHouse c.cell) []).getD (c.digit - 1) 0)
        (1 <<< rowPosOf c.cell))
    let a := hppSet a (colHouse c.cell) c.digit
      (setWithout ((a.getD (colHouse c.cell) []).getD (c.digit - 1) 0)
        (1 <<< colPosOf c.cell))
    let a := hppSet a (blockHouse c.cell) c.digit
      (setWithout ((a.getD (blockHouse c.cell) []).getD (c.digit - 1) 0)
        (1 <<< blockPosOf c.cell))
    hppElimLoop rest a

/-- Remove `digit` as a possibility at each neighbouring cell's positions. -/
def hppNeighborsLoop (cells : List Nat) (digit : Nat) (a : List (List Nat)) :
    List (List Nat) :=
  match cells with
  | [] => a
  | cell :: rest =>
    let a := hppSet a (rowHouse cell) digit
      (setWithout ((a.getD (rowHouse cell) []).getD (digit - 1) 0) (1 <<< rowPosOf cell))
    let a := hppSet a (colHouse cell) digit
      (setWithout ((a.getD (colHouse cell) []).getD (digit - 1) 0) (1 <<< colPosOf cell))
    let a := hppSet a (blockHouse cell) digit
      (setWithout ((a.getD (blockHouse cell) []).getD (digit - 1) 0) (1 <<< blockPosOf cell))
    hppNeighborsLoop rest digit a

/-- Clear the placed cell's position for every digit in its three houses. -/
def hppClearPosLoop (digits : List Nat) (cell : Nat) (a : List (List Nat)) :
    List (List Nat) :=
  match digits with
  | [] => a
  | d :: rest =>
    let a := hppSet a (rowHouse cell) d
      (setWithout ((a.getD (rowHouse cell) []).getD (d - 1) 0) (1 <<< rowPosOf cell))
    let a := hppSet a (colHouse cell) d
      (setWithout ((a.getD (colHouse cell) []).getD (d - 1) 0) (1 <<< colPosOf cell))
    let a := hppSet a (blockHouse cell) d
      (setWithout ((a.getD (blockHouse cell) []).getD (d - 1) 0) (1 <<< blockPosOf cell))
    hppClearPosLoop rest cell a

/-- Placement pass of `update_house_poss_positions`. -/
def hppDeducedLoop (deds : List Candidate) (a : List (List Nat)) : List (List Nat) :=
  match deds with
  | [] => a
  | c :: rest =>
    let a := hppNeighborsLoop (neighbors c.cell) c.digit a
    let a := hppClearPosLoop [1, 2, 3, 4, 5, 6, 7, 8, 9] c.cell a
    let a := hppSet a (rowHouse c.cell) c.digit 0
    let a := hppSet a (colHouse c.cell) c.digit 0
    let a := hppSet a (blockHouse c.cell) c.digit 0
    hppDeducedLoop rest a

/-- `StrategySolver::update_house_poss_positions` (it never fails). -/
def update_house_poss_positions (s : StrategySolver) : StrategySolver :=
  let a := hppElimLoop
    (s.eliminated_entries.drop s.house_poss_positions.last_eliminated)
    s.house_poss_positions.state
  let a := hppDeducedLoop
    (s.deduced_entries.drop s.house_poss_positions.next_deduced) a
  { s with
    house_poss_positions :=
      { next_deduced := s.deduced_entries.length
        last_eliminated := s.eliminated_entries.length
        state := a } }

/-! ## Reporting operations -/

/-- `StrategySolver::grid_state` (the error of the cache refresh is
discarded, `let _ = ...` in the source). -/
def grid_state (s : StrategySolver) : List CellState × StrategySolver :=
  let s := update_grid s
  let s := (update_cell_poss_house_solved false s).1
  let g := List.replicate 81 (CellState.Candidates 0)
  let g := s.cell_poss_digits.state.enum.foldl
    (fun g x => g.set x.1 (CellState.Candidates x.2)) g
  let g := s.grid.state.enum.foldl
    (fun g x => if x.2 ≠ 0 then g.set x.1 (CellState.Digit x.2) else g) g
  (g, s)

/-- `StrategySolver::cell_state`. -/
def cell_state (s : StrategySolver) (cell : Nat) : CellState × StrategySolver :=
  let s := update_grid s
  let s := (update_cell_poss_house_solved false s).1
  let d := s.grid.state.getD cell 0
  (if d ≠ 0 then CellState.Digit d else CellState.Candidates (cpAt s cell), s)
/-! ## Strategy routines: naked singles -/

/-- The scanning loop of `find_naked_singles` over the snapshot of
`(cell, possibility mask)` pairs.  `unique().unwrap_or(None)` swallows the
`Zero` of solved cells; a found single is pushed through the helper *and*
appended to `deduced_entries` a second time directly. -/
def nsScan (items : List (Nat × Nat)) (stop_after_first : Bool) (s : StrategySolver) :
    StrategySolver × Bool :=
  match items with
  | [] => (s, true)
  | (cell, poss) :: rest =>
    let uniq := match setUnique poss with
      | .ok v => v
      | .error _ => none
    match uniq with
    | none => nsScan rest stop_after_first s
    | some idx =>
      let c : Candidate := ⟨cell, idx + 1⟩
      andThen (push_new_candidate s c (Deduction.NakedSingles c)) (fun s =>
        let s := { s with deduced_entries := s.deduced_entries ++ [c] }
        if stop_after_first then (s, true) else nsScan rest stop_after_first s)

/-- `StrategySolver::find_naked_singles`. -/
def find_naked_singles (stop_after_first : Bool) (s : StrategySolver) :
    StrategySolver × Bool :=
  andThen (update_cell_poss_house_solved false s) (fun s =>
    andThen (nsScan ((List.range 81).zip s.cell_poss_digits.state) stop_after_first s)
      (update_cell_poss_house_solved false))

/-! ## Strategy routines: hidden singles -/

/-- Three-way loop outcome: error, stop the whole routine, or continue. -/
inductive LoopExit
  | err
  | stop
  | cont
deriving DecidableEq, Repr

/-- Inner cell loop of `find_hidden_singles` for one house. -/
def hsCellLoop (cells : List Nat) (house singles : Nat) (stop_after_first : Bool)
    (s : StrategySolver) : StrategySolver × LoopExit :=
  match cells with
  | [] => (s, .cont)
  | cell :: rest =>
    let mask := cpAt s cell
    match setUnique (mask &&& singles) with
    | .error _ => hsCellLoop rest house singles stop_after_first s
    | .ok none => (s, .err)
    | .ok (some idx) =>
      let c : Candidate := ⟨cell, idx + 1⟩
      match push_new_candidate s c (Deduction.HiddenSingles c (houseCategory house)) with
      | (s, false) => (s, .err)
      | (s, true) =>
        let singles := setWithout singles (1 <<< idx)
        if stop_after_first then (s, .stop)
        else if setIsEmpty singles then (s, .cont)
        else hsCellLoop rest house singles stop_after_first s

/-- House loop of `find_hidden_singles`. -/
def hsHouseLoop (houses : List Nat) (stop_after_first : Bool) (s : StrategySolver) :
    StrategySolver × Bool :=
  match houses with
  | [] => (s, true)
  | h :: rest =>
    let cells := houseCells h
    let um := cells.foldl
      (fun (acc : Nat × Nat) cell => (acc.1 ||| cpAt s cell, acc.2 ||| (acc.1 &&& cpAt s cell)))
      (0, 0)
    if (um.1 ||| hsAt s h) ≠ DIGIT_ALL then (s, false)
    else
      let singles := setWithout um.1 um.2
      if setIsEmpty singles then hsHouseLoop rest stop_after_first s
      else
        match hsCellLoop cells h singles stop_after_first s with
        | (s, .err) => (s, false)
        | (s, .stop) => (s, true)
        | (s, .cont) => hsHouseLoop rest stop_after_first s

/-- `StrategySolver::find_hidden_singles`. -/
def find_hidden_singles (stop_after_first : Bool) (s : StrategySolver) :
    StrategySolver × Bool :=
  andThen (update_cell_poss_house_solved false s)
    (hsHouseLoop (List.range 27) stop_after_first)

/-! ## Strategy routines: locked candidates -/

/-- The free function `find_unique`: digit masks occurring `≥ 1`, `> 1` and
`= 1` times among the given possibility masks. -/
def find_unique (ms : List Nat) : Nat × Nat × Nat :=
  let um := ms.foldl
    (fun (acc : Nat × Nat) m => (acc.1 ||| m, acc.2 ||| (acc.1 &&& m))) (0, 0)
  (um.1, um.2, setWithout um.1 um.2)

/-- Union of cell possibilities for each of the 9 minilines of chute `t`. -/
def lcMinilinePoss (t : Nat) (s : StrategySolver) : List Nat :=
  (List.range 9).map (fun i => (minilineCells t i).foldl (fun acc cell => acc ||| cpAt s cell) 0)

/-- Append the eliminations of the `find_impossibles` closure for the given
neighbour minilines.  The per-neighbour skip consults the neighbour's own
possibility union (modelled from the spec; the source's
`miniline_poss_digits[neighbor.chute().as_index()]` lookup depends on the
missing `board.rs` index encoding). -/
def lcNeighborLoop (t : Nat) (poss : List Nat) (nbs : List Nat) (uniques : Nat)
    (s : StrategySolver) : StrategySolver :=
  match nbs with
  | [] => s
  | nb :: rest =>
    let conflicts := poss.getD nb 0 &&& uniques
    if setIsEmpty conflicts then lcNeighborLoop t poss rest uniques s
    else
      let s := (minilineCells t nb).foldl
        (fun s cell =>
          (digitsOf (cpAt s cell &&& uniques)).foldl
            (fun s d => { s with eliminated_entries := s.eliminated_entries ++ [⟨cell, d⟩] }) s)
        s
      lcNeighborLoop t poss rest uniques s

/-- Loop over the two `(uniques, neighbours)` pairs of one miniline. -/
def lcPairLoop (t i : Nat) (poss : List Nat) (pairs : List (Nat × List Nat))
    (stop_after_first : Bool) (s : StrategySolver) : StrategySolver × LoopExit :=
  match pairs with
  | [] => (s, .cont)
  | (uniques, nbs) :: rest =>
    if setIsEmpty uniques then lcPairLoop t i poss rest stop_after_first s
    else
      let n0 := s.eliminated_entries.length
      let s := lcNeighborLoop t poss nbs uniques s
      let n1 := s.eliminated_entries.length
      if n0 < n1 then
        let s := { s with deductions :=
          s.deductions ++ [Deduction.LockedCandidates (9 * t + i) uniques (n0, n1)] }
        if stop_after_first then (s, .stop) else lcPairLoop t i poss rest stop_after_first s
      else lcPairLoop t i poss rest stop_after_first s

/-- Loop over the 9 minilines of a chute. -/
def lcMinilineLoop (t : Nat) (poss lineU fieldU : List Nat) (is : List Nat)
    (stop_after_first : Bool) (s : StrategySolver) : StrategySolver × LoopExit :=
  match is with
  | [] => (s, .cont)
  | i :: rest =>
    let line_uniques := poss.getD i 0 &&& lineU.getD (i / 3) 0
    let field_uniques := poss.getD i 0 &&& fieldU.getD (i % 3) 0
    match lcPairLoop t i poss
        [(line_uniques, minilineFieldNeighbors i), (field_uniques, minilineLineNeighbors i)]
        stop_after_first s with
    | (s, .stop) => (s, .stop)
    | (s, .err) => (s, .err)
    | (s, .cont) => lcMinilineLoop t poss lineU fieldU rest stop_after_first s

/-- Chute loop of `find_locked_candidates`. -/
def lcChuteLoop (ts : List Nat) (stop_after_first : Bool) (s : StrategySolver) :
    StrategySolver × Bool :=
  match ts with
  | [] => (s, true)
  | t :: rest =>
    let poss := lcMinilinePoss t s
    let lineU := (List.range 3).map
      (fun l => (find_unique ((List.range 3).map (fun f => poss.getD (l * 3 + f) 0))).2.2)
    let fieldU := (List.range 3).map
      (fun f => (find_unique ((List.range 3).map (fun l => poss.getD (l * 3 + f) 0))).2.2)
    match lcMinilineLoop t poss lineU fieldU (List.range 9) stop_after_first s with
    | (s, .stop) => (s, true)
    | (s, .err) => (s, false)
    | (s, .cont) => lcChuteLoop rest stop_after_first s

/-- `StrategySolver::find_locked_candidates`. -/
def find_locked_candidates (stop_after_first : Bool) (s : StrategySolver) :
    StrategySolver × Bool :=
  andThen (update_cell_poss_house_solved false s)
    (lcChuteLoop [0, 1, 2, 3, 4, 5] stop_after_first)

/-! ## Strategy routines: naked and hidden subsets

The depth-first searches thread the position/digit iterator down the
recursion (`positions.clone()` in the source): here the iterator is the
remaining bitmask.  Every recursive call — one level deeper or the next loop
iteration — clears one bit of a 9-bit iterator, so any call chain is shorter
than `9 * 9 + 9`; fuel 512 therefore dominates the recursion of the source. -/

/-- The elimination block of the naked-subsets walker: for every position of
the house outside the stack, rule the subset's digits out of its cell. -/
def nsSubsetEliminate (house total stack : Nat) (s : StrategySolver) : StrategySolver :=
  (setElems 9 (setWithout POS_ALL stack)).foldl
    (fun s pos =>
      let cell := houseCellAt house pos
      (digitsOf (cpAt s cell &&& total)).foldl
        (fun s d => { s with eliminated_entries := s.eliminated_entries ++ [⟨cell, d⟩] }) s)
    s

mutual

/-- `walk_combinations` of `find_naked_subsets`. -/
def nsWalk : Nat → Nat → Nat → Bool → Nat → Nat → Nat → StrategySolver →
    StrategySolver × Bool
  | 0, _, _, _, _, _, _, s => (s, false)
  | fuel+1, house, size, saf, total, iter, stack, s =>
    if size < setLen stack then (s, false)
    else if setLen stack = size ∧ setLen total = setLen stack then
      let n0 := s.eliminated_entries.length
      let s := nsSubsetEliminate house total stack s
      let n1 := s.eliminated_entries.length
      if n0 < n1 then
        let s := { s with deductions :=
          s.deductions ++ [Deduction.NakedSubsets house stack total (n0, n1)] }
        if saf then (s, true) else nsWalkLoop fuel house size saf total iter stack s
      else nsWalkLoop fuel house size saf total iter stack s
    else nsWalkLoop fuel house size saf total iter stack s

/-- The `while let Some(position) = positions.next()` loop of the walker. -/
def nsWalkLoop : Nat → Nat → Nat → Bool → Nat → Nat → Nat → StrategySolver →
    StrategySolver × Bool
  | 0, _, _, _, _, _, _, s => (s, false)
  | fuel+1, house, size, saf, total, iter, stack, s =>
    match setNext iter with
    | none => (s, false)
    | some (pos, rest) =>
      let cpd := cpAt s (houseCellAt house pos)
      if setIsEmpty cpd then nsWalkLoop fuel house size saf total rest stack s
      else
        match nsWalk fuel house size saf (total ||| cpd) rest (stack ||| (1 <<< pos)) s with
        | (s, true) => (s, true)
        | (s, false) => nsWalkLoop fuel house size saf total rest stack s

end

/-- House loop of `find_naked_subsets` (the shared `stack` is restored to
`NONE` on every normal return of the walker). -/
def nsHouseLoop (houses : List Nat) (size : Nat) (saf : Bool) (s : StrategySolver) :
    StrategySolver × Bool :=
  match houses with
  | [] => (s, true)
  | h :: rest =>
    if hsAt s h == DIGIT_ALL then nsHouseLoop rest size saf s
    else
      match nsWalk 512 h size saf 0 DIGIT_ALL 0 s with
      | (s, true) => (s, true)
      | (s, false) => nsHouseLoop rest size saf s

/-- `StrategySolver::find_naked_subsets`. -/
def find_naked_subsets (size : Nat) (saf : Bool) (s : StrategySolver) :
    StrategySolver × Bool :=
  andThen (update_cell_poss_house_solved false s) (nsHouseLoop (List.range 27) size saf)

/-- The elimination block of the hidden-subsets walker. -/
def hsSubsetEliminate (house total stack : Nat) (s : StrategySolver) : StrategySolver :=
  (digitsOf (setWithout DIGIT_ALL stack)).foldl
    (fun s d =>
      (setElems 9 (hppAt s house d &&& total)).foldl
        (fun s pos =>
          { s with eliminated_entries := s.eliminated_entries ++ [⟨houseCellAt house pos, d⟩] })
        s)
    s

mutual

/-- `walk_combinations` of `find_hidden_subsets` (stack and iterator are
digit masks, the running union collects possible positions). -/
def hdWalk : Nat → Nat → Nat → Bool → Nat → Nat → Nat → StrategySolver →
    StrategySolver × Bool
  | 0, _, _, _, _, _, _, s => (s, false)
  | fuel+1, house, size, saf, total, iter, stack, s =>
    if size < setLen stack then (s, false)
    else if setLen stack = size ∧ setLen total = setLen stack then
      let n0 := s.eliminated_entries.length
      let s := hsSubsetEliminate house total stack s
      let n1 := s.eliminated_entries.length
      if n0 < n1 then
        let s := { s with deductions :=
          s.deductions ++ [Deduction.HiddenSubsets house stack total (n0, n1)] }
        if saf then (s, true) else hdWalkLoop fuel house size saf total iter stack s
      else hdWalkLoop fuel house size saf total iter stack s
    else hdWalkLoop fuel house size saf total iter stack s

def hdWalkLoop : Nat → Nat → Nat → Bool → Nat → Nat → Nat → StrategySolver →
    StrategySolver × Bool
  | 0, _, _, _, _, _, _, s => (s, false)
  | fuel+1, house, size, saf, total, iter, stack, s =>
    match setNext iter with
    | none => (s, false)
    | some (idx, rest) =>
      let num_poss_pos := hppAt s house (idx + 1)
      if setIsEmpty num_poss_pos then hdWalkLoop fuel house size saf total rest stack s
      else
        match hdWalk fuel house size saf (total ||| num_poss_pos) rest
            (stack ||| (1 <<< idx)) s with
        | (s, true) => (s, true)
        | (s, false) => hdWalkLoop fuel house size saf total rest stack s

end

/-- House loop of `find_hidden_subsets`. -/
def hdHouseLoop (houses : List Nat) (size : Nat) (saf : Bool) (s : StrategySolver) :
    StrategySolver × Bool :=
  match houses with
  | [] => (s, true)
  | h :: rest =>
    if hsAt s h == DIGIT_ALL then hdHouseLoop rest size saf s
    else
      match hdWalk 512 h size saf 0 DIGIT_ALL 0 s with
      | (s, true) => (s, true)
      | (s, false) => hdHouseLoop rest size saf s

/-- `StrategySolver::find_hidden_subsets` (refreshes `house_poss_positions`,
which never fails). -/
def find_hidden_subsets (size : Nat) (saf : Bool) (s : StrategySolver) :
    StrategySolver × Bool :=
  hdHouseLoop (List.range 27) size saf (update_house_poss_positions s)

/-! ## Strategy routines: basic fish -/

/-- The elimination block of `basic_fish_walk_combinations`. -/
def bfEliminate (digit all_lines stack uni : Nat) (s : StrategySolver) : StrategySolver :=
  (setElems 18 (setWithout all_lines stack)).foldl
    (fun s line =>
      (setElems 9 uni).foldl
        (fun s pos =>
          let cell := lineCellAt line pos
          if setOverlaps (cpAt s cell) (1 <<< (digit - 1)) then
            { s with eliminated_entries := s.eliminated_entries ++ [⟨cell, digit⟩] }
          else s)
        s)
    s

mutual

/-- `basic_fish_walk_combinations` (the iterator is an 18-bit line mask, so
call chains are shorter than `18 * 18 + 18`; fuel 512 dominates). -/
def bfWalk : Nat → Nat → Nat → Nat → Bool → Nat → Nat → Nat → StrategySolver →
    StrategySolver × Bool
  | 0, _, _, _, _, _, _, _, s => (s, false)
  | fuel+1, digit, goal, all_lines, saf, stack, iter, uni, s =>
    if setLen stack = goal then
      if setLen uni ≠ goal then (s, false)
      else
        let n0 := s.eliminated_entries.length
        let s := bfEliminate digit all_lines stack uni s
        let n1 := s.eliminated_entries.length
        if n0 < n1 then
          let s := { s with deductions :=
            s.deductions ++ [Deduction.BasicFish stack digit uni (n0, n1)] }
          if saf then (s, true) else bfWalkLoop fuel digit goal all_lines saf stack iter uni s
        else bfWalkLoop fuel digit goal all_lines saf stack iter uni s
    else bfWalkLoop fuel digit goal all_lines saf stack iter uni s

def bfWalkLoop : Nat → Nat → Nat → Nat → Bool → Nat → Nat → Nat → StrategySolver →
    StrategySolver × Bool
  | 0, _, _, _, _, _, _, _, s => (s, false)
  | fuel+1, digit, goal, all_lines, saf, stack, iter, uni, s =>
    match setNext iter with
    | none => (s, false)
    | some (line, rest) =>
      let possible_pos := hppAt s line digit
      let newUni := uni ||| possible_pos
      if setLen possible_pos < 2 ∨ goal < setLen newUni then
        bfWalkLoop fuel digit goal all_lines saf stack rest uni s
      else
        match bfWalk fuel digit goal all_lines saf (stack ||| (1 <<< line)) rest newUni s with
        | (s, true) => (s, true)
        | (s, false) => bfWalkLoop fuel digit goal all_lines saf stack rest uni s

end

/-- Digit loop of `find_fish`: rows orientation first, then columns. -/
def bfDigitLoop (digits : List Nat) (max_size : Nat) (saf : Bool) (s : StrategySolver) :
    StrategySolver × Bool :=
  match digits with
  | [] => (s, true)
  | d :: rest =>
    match bfWalk 512 d max_size ALL_ROWS saf 0 ALL_ROWS 0 s with
    | (s, true) => (s, true)
    | (s, false) =>
      match bfWalk 512 d max_size ALL_COLS saf 0 ALL_COLS 0 s with
      | (s, true) => (s, true)
      | (s, false) => bfDigitLoop rest max_size saf s

/-- `StrategySolver::find_fish` (the `unwrap` on the position-cache refresh
is safe: that refresh never fails). -/
def find_fish (max_size : Nat) (saf : Bool) (s : StrategySolver) : StrategySolver × Bool :=
  let s := update_house_poss_positions s
  andThen (update_cell_poss_house_solved false s)
    (bfDigitLoop [1, 2, 3, 4, 5, 6, 7, 8, 9] max_size saf)

def find_xwings (saf : Bool) (s : StrategySolver) : StrategySolver × Bool :=
  find_fish 2 saf s

def find_swordfish (saf : Bool) (s : StrategySolver) : StrategySolver × Bool :=
  find_fish 3 saf s

def find_jellyfish (saf : Bool) (s : StrategySolver) : StrategySolver × Bool :=
  find_fish 4 saf s

/-! ## Strategy routine: singles chain (simple colouring) -/

inductive Colour
  | Uncoloured
  | A
  | B
deriving DecidableEq, Repr

mutual

/-- The recursive `follow_links` of `find_singles_chain`, with its guard
`if cell_linked[cell] <= link_nr { return }`.  Fuel 512 dominates: every
recursive step claims a fresh cell of the 81. -/
def follow_links : Nat → Nat → Nat → Bool → StrategySolver → List Colour → Nat →
    List Nat → List Colour × List Nat
  | 0, _, _, _, _, colors, _, linked => (colors, linked)
  | fuel+1, digit, cell, is_a, s, colors, link_nr, linked =>
    if linked.getD cell 0 ≤ link_nr then (colors, linked)
    else
      flHouseLoop fuel digit is_a s
        [(rowHouse cell, rowPosOf cell), (colHouse cell, colPosOf cell),
          (blockHouse cell, blockPosOf cell)]
        colors link_nr linked

/-- The loop over the three houses of the current cell in `follow_links`. -/
def flHouseLoop : Nat → Nat → Bool → StrategySolver → List (Nat × Nat) → List Colour →
    Nat → List Nat → List Colour × List Nat
  | 0, _, _, _, _, colors, _, linked => (colors, linked)
  | _+1, _, _, _, [], colors, _, linked => (colors, linked)
  | fuel+1, digit, is_a, s, (h, pos) :: rest, colors, link_nr, linked =>
    let hp := hppAt s h digit
    if setLen hp = 2 then
      let other_cell := houseCellAt h (setOnePossibility (setWithout hp (1 <<< pos)))
      if linked.getD other_cell 0 ≤ link_nr then
        flHouseLoop fuel digit is_a s rest colors link_nr linked
      else
        let linked := linked.set other_cell link_nr
        let colors := colors.set other_cell (if is_a then Colour.A else Colour.B)
        let cl := follow_links fuel digit other_cell (!is_a) s colors link_nr linked
        flHouseLoop fuel digit is_a s rest cl.1 link_nr cl.2
    else flHouseLoop fuel digit is_a s rest colors link_nr linked

end

/-- The chain-building house loop of `find_singles_chain`: start a colouring
from the first cell of every house with exactly two possible positions. -/
def scChainBuild (houses : List Nat) (digit : Nat) (s : StrategySolver)
    (touched : List Bool) (link_nr : Nat) (colors : List Colour) (linked : List Nat) :
    Nat × List Colour × List Nat :=
  match houses with
  | [] => (link_nr, colors, linked)
  | h :: rest =>
    let hp := hppAt s h digit
    if setLen hp = 2 then
      let cell := houseCellAt h (setOnePossibility hp)
      if touched.getD cell false then scChainBuild rest digit s touched link_nr colors linked
      else
        let touched := touched.set cell true
        let cl := follow_links 512 digit cell true s colors link_nr linked
        scChainBuild rest digit s touched (link_nr + 1) cl.1 cl.2
    else scChainBuild rest digit s touched link_nr colors linked

/-- Rule 1 house colour tally: the colours of this chain's cells at their
positions in the house. -/
def scHouseColors (h link_nr : Nat) (colors : List Colour) (linked : List Nat) :
    List Colour :=
  ((houseCells h).enum.filter (fun x => linked.getD x.2 0 == link_nr)).foldl
    (fun hc x => hc.set x.1 (colors.getD x.2 Colour.Uncoloured))
    (List.replicate 9 Colour.Uncoloured)

/-- Count of `A`- and `B`-coloured entries. -/
def scCountAB (hc : List Colour) : Nat × Nat :=
  hc.foldl
    (fun acc c =>
      match c with
      | .A => (acc.1 + 1, acc.2)
      | .B => (acc.1, acc.2 + 1)
      | .Uncoloured => acc)
    (0, 0)

/-- `mark_impossible`: push an elimination for every cell of the chain with
the given colour. -/
def mark_impossible (digit link_nr : Nat) (colour : Colour) (colors : List Colour)
    (linked : List Nat) (elims : List Candidate) : List Candidate :=
  ((List.range 81).filter
      (fun cell => linked.getD cell 0 == link_nr
        && colors.getD cell Colour.Uncoloured == colour)).foldl
    (fun es cell => es ++ [Candidate.mk cell digit]) elims

/-- The Rule-1 house scan: `Err` on a double collision of both colours,
otherwise mark the first over-represented colour impossible and break. -/
def scRule1Loop (houses : List Nat) (digit link_nr : Nat) (colors : List Colour)
    (linked : List Nat) (s : StrategySolver) : StrategySolver × Bool :=
  match houses with
  | [] => (s, true)
  | h :: rest =>
    let nab := scCountAB (scHouseColors h link_nr colors linked)
    if 2 ≤ nab.1 ∧ 2 ≤ nab.2 then (s, false)
    else if 2 ≤ nab.1 then
      ({ s with eliminated_entries :=
          mark_impossible digit link_nr Colour.A colors linked s.eliminated_entries }, true)
    else if 2 ≤ nab.2 then
      ({ s with eliminated_entries :=
          mark_impossible digit link_nr Colour.B colors linked s.eliminated_entries }, true)
    else scRule1Loop rest digit link_nr colors linked s

/-- One Rule-2 `cell_sees_colour` update for a neighbour of a chain cell. -/
def scRule2Update (digit : Nat) (colour : Colour) (neighbor : Nat)
    (acc : StrategySolver × List (Bool × Bool)) : StrategySolver × List (Bool × Bool) :=
  let sees := acc.2.getD neighbor (false, false)
  if colour == Colour.A && !sees.1 then
    let st := if sees.2 then
        { acc.1 with eliminated_entries := acc.1.eliminated_entries ++ [⟨neighbor, digit⟩] }
      else acc.1
    (st, acc.2.set neighbor (true, sees.2))
  else if colour == Colour.B && !sees.2 then
    let st := if sees.1 then
        { acc.1 with eliminated_entries := acc.1.eliminated_entries ++ [⟨neighbor, digit⟩] }
      else acc.1
    (st, acc.2.set neighbor (sees.1, true))
  else acc

/-- Rule 2 of `find_singles_chain`: eliminate from any cell seeing both
colours of the chain. -/
def scRule2 (digit link_nr : Nat) (colors : List Colour) (linked : List Nat)
    (s : StrategySolver) : StrategySolver :=
  (((List.range 81).filter
      (fun cell => linked.getD cell 0 == link_nr
        && colors.getD cell Colour.Uncoloured != Colour.Uncoloured)).foldl
    (fun acc cell =>
      (housesOf cell).foldl
        (fun acc h =>
          ((houseCells h).filter (fun c2 => c2 != cell)).foldl
            (fun acc nb => scRule2Update digit (colors.getD cell Colour.Uncoloured) nb acc)
            acc)
        acc)
    (s, List.replicate 81 (false, false))).1

/-- Loop over the chains found for one digit. -/
def scLinkLoop (lns : List Nat) (digit : Nat) (colors : List Colour) (linked : List Nat)
    (s : StrategySolver) : StrategySolver × Bool :=
  match lns with
  | [] => (s, true)
  | ln :: rest =>
    match scRule1Loop (List.range 27) digit ln colors linked s with
    | (s, false) => (s, false)
    | (s, true) => scLinkLoop rest digit colors linked (scRule2 digit ln colors linked s)

/-- Digit loop of `find_singles_chain`. -/
def scDigitLoop (digits : List Nat) (s : StrategySolver) : StrategySolver × Bool :=
  match digits with
  | [] => (s, true)
  | d :: rest =>
    let built := scChainBuild (List.range 27) d s (List.replicate 81 false) 0
      (List.replicate 81 Colour.Uncoloured) (List.replicate 81 0)
    match scLinkLoop (List.range built.1) d built.2.1 built.2.2 s with
    | (s, false) => (s, false)
    | (s, true) => scDigitLoop rest s

/-- `StrategySolver::find_singles_chain` (it performs no cache refresh). -/
def find_singles_chain (s : StrategySolver) : StrategySolver × Bool :=
  scDigitLoop [1, 2, 3, 4, 5, 6, 7, 8, 9] s

/-! ## Strategy dispatch and the solver driver -/

/-- Modelled from the spec: the `Strategy` enum of
`src/strategy/strategies.rs` (not among the provided sources).  The spec
lists these thirteen strategies; `deduce_all` runs a routine in exhaustive
mode (`stop_after_first = false`) and `deduce_one` with
`stop_after_first = true`; the singles-chain routine takes no flag. -/
inductive Strategy
  | NakedSingles
  | HiddenSingles
  | LockedCandidates
  | NakedPairs
  | NakedTriples
  | NakedQuads
  | HiddenPairs
  | HiddenTriples
  | HiddenQuads
  | XWing
  | Swordfish
  | Jellyfish
  | SinglesChain
deriving DecidableEq, Repr

def Strategy.deduce (st : Strategy) (stop_after_first : Bool) (s : StrategySolver) :
    StrategySolver × Bool :=
  match st with
  | .NakedSingles => find_naked_singles stop_after_first s
  | .HiddenSingles => find_hidden_singles stop_after_first s
  | .LockedCandidates => find_locked_candidates stop_after_first s
  | .NakedPairs => find_naked_subsets 2 stop_after_first s
  | .NakedTriples => find_naked_subsets 3 stop_after_first s
  | .NakedQuads => find_naked_subsets 4 stop_after_first s
  | .HiddenPairs => find_hidden_subsets 2 stop_after_first s
  | .HiddenTriples => find_hidden_subsets 3 stop_after_first s
  | .HiddenQuads => find_hidden_subsets 4 stop_after_first s
  | .XWing => find_xwings stop_after_first s
  | .Swordfish => find_swordfish stop_after_first s
  | .Jellyfish => find_jellyfish stop_after_first s
  | .SinglesChain => find_singles_chain s

def Strategy.deduce_all (st : Strategy) (s : StrategySolver) : StrategySolver × Bool :=
  st.deduce false s

def Strategy.deduce_one (st : Strategy) (s : StrategySolver) : StrategySolver × Bool :=
  st.deduce true s

/-- The `for strategy in rest` pass of `try_solve`: `deduce_one` each
strategy, restart the outer loop on any new placement or elimination, break
on an error. -/
def restLoop (sts : List Strategy) (nd ne : Nat) (s : StrategySolver) :
    StrategySolver × Bool :=
  match sts with
  | [] => (s, false)
  | st :: rest =>
    match st.deduce_one s with
    | (s, false) => (s, false)
    | (s, true) =>
      if nd < s.deduced_entries.length ∨ ne < s.eliminated_entries.length then (s, true)
      else restLoop rest nd ne s

/-- The `'outer` loop of `try_solve`. -/
def tryLoop : Nat → Strategy → List Strategy → StrategySolver → StrategySolver
  | 0, _, _, s => s
  | fuel+1, first, rest, s =>
    if is_solved s then s
    else
      let nd := s.deduced_entries.length
      let ne := s.eliminated_entries.length
      match first.deduce_all s with
      | (s, false) => s
      | (s, true) =>
        if nd < s.deduced_entries.length then tryLoop fuel first rest s
        else
          match restLoop rest nd ne s with
          | (s, true) => tryLoop fuel first rest s
          | (s, false) => s

/-- Rust's lexicographic `<` on `(usize, usize)` pairs. -/
def lexLt (p q : Nat × Nat) : Bool :=
  Nat.blt p.1 q.1 || (Nat.beq p.1 q.1 && Nat.blt p.2 q.2)

/-- `StrategySolver::try_solve`: the strategy loop, then compare the log
lengths against the lengths captured on entry.  Every `continue 'outer`
strictly grows a log, and the logs of states arising from real puzzles are
bounded (at most 81 fresh placements plus duplicates, at most 729 distinct
eliminations), so the fuel below dominates the iterations of the Rust
loop. -/
def try_solve (s : StrategySolver) (strategies : List Strategy) :
    Bool × StrategySolver :=
  match strategies with
  | [] => (false, s)
  | first :: rest =>
    let nd := s.deduced_entries.length
    let ne := s.eliminated_entries.length
    let s := tryLoop (nd + ne + 2048) first rest s
    (lexLt (nd, ne) (s.deduced_entries.length, s.eliminated_entries.length), s)

/-- `StrategySolver::solve`: one `try_solve` pass, refresh the grid, and
return it with the extracted deductions on the `Ok`/`Err` branch according
to `is_solved`. -/
def solve (s : StrategySolver) (strategies : List Strategy) :
    Except (List Nat × Deductions) (List Nat × Deductions) :=
  let s := (try_solve s strategies).2
  let s := update_grid s
  if is_solved s then .ok (s.grid.state, into_deductions s)
  else .error (s.grid.state, into_deductions s)

/-! ## Specification-side helpers and concrete inputs -/

/-- Payload of `solve` on either branch. -/
def solveOutput : Except (List Nat × Deductions) (List Nat × Deductions) →
    List Nat × Deductions
  | .ok x => x
  | .error x => x

/-- The digit the write-back of `update_grid` leaves at cell `i`: the last
logged digit for that cell, or the default when the log never touches it. -/
def lastPlacedDigit (entries : List Candidate) (i dflt : Nat) : Nat :=
  entries.foldl (fun acc c => if c.cell = i then c.digit else acc) dflt

/-- The logs only ever grow and `n_solved` never decreases. -/
def Extends (s t : StrategySolver) : Prop :=
  (∃ l, t.deduced_entries = s.deduced_entries ++ l) ∧
  (∃ l, t.eliminated_entries = s.eliminated_entries ++ l) ∧
  (∃ l, t.deductions = s.deductions ++ l) ∧
  s.n_solved ≤ t.n_solved

/-- A puzzle with a single given: digit 5 at cell 0. -/
def p0 : List Nat := 5 :: List.replicate 80 0

/-- A completed valid sudoku grid (cell `(r, c)` holds
`(c + 3 r + r / 3) % 9 + 1`). -/
def fullGrid : List Nat :=
  (List.range 81).map (fun i => (i % 9 + 3 * (i / 9) + i / 27) % 9 + 1)

/-- Four 1s placed so that row 0 has a hidden single 1 in cell 0 (and no
naked single anywhere). -/
def pHS : List Nat :=
  (List.range 81).map (fun i => if i = 12 ∨ i = 24 ∨ i = 37 ∨ i = 65 then 1 else 0)

/-- Digits 2..9 in cells 1..8, leaving the naked single 1 in cell 0. -/
def pNS : List Nat :=
  (List.range 81).map (fun i => if 1 ≤ i ∧ i ≤ 8 then i + 1 else 0)

/-! # Theorems -/

/-! ## Bitset facts (towards C8) -/

theorem setLenAux_zero (fuel : Nat) : setLenAux fuel 0 = 0 := by
  cases fuel <;> simp [setLenAux]

theorem setLenAux_eq_zero : ∀ (fuel m : Nat), m < 2 ^ fuel → setLenAux fuel m = 0 → m = 0 := by
  intro fuel
  induction fuel with
  | zero => intro m hm _; simpa using hm
  | succ f ih =>
    intro m hm h
    by_cases h0 : m = 0
    · exact h0
    · simp only [setLenAux, h0, if_false] at h
      have h1 : m % 2 = 0 := by omega
      have h2 : setLenAux f (m / 2) = 0 := by omega
      have h3 : m / 2 < 2 ^ f := by
        have : 2 ^ (f + 1) = 2 ^ f * 2 := by ring
        omega
      have := ih (m / 2) h3 h2
      omega

theorem setLenAux_one : ∀ (fuel m : Nat), m < 2 ^ fuel → setLenAux fuel m = 1 →
    m = 2 ^ ctzAux fuel m := by
  intro fuel
  induction fuel with
  | zero => intro m hm h; rw [setLenAux] at h; omega
  | succ f ih =>
    intro m hm h
    by_cases h0 : m = 0
    · rw [h0, setLenAux_zero] at h; omega
    · simp only [setLenAux, h0, if_false] at h
      have hdiv : m / 2 < 2 ^ f := by
        have : 2 ^ (f + 1) = 2 ^ f * 2 := by ring
        omega
      by_cases hpar : m % 2 = 1
      · have h2 : setLenAux f (m / 2) = 0 := by omega
        have := setLenAux_eq_zero f (m / 2) hdiv h2
        have hm1 : m = 1 := by omega
        simp [hm1, ctzAux]
      · have hpar0 : m % 2 = 0 := by omega
        have h2 : setLenAux f (m / 2) = 1 := by omega
        have := ih (m / 2) hdiv h2
        have hctz : ctzAux (f + 1) m = ctzAux f (m / 2) + 1 := by
          simp [ctzAux, hpar]
        rw [hctz, pow_succ]
        omega

/-- C8: `Set::unique` returns `Ok(Some(x))` with `x` the sole element (the
mask is exactly the bit at `x`) when the set has one element, `Err(Zero)`
when it is empty, and `Ok(None)` when it has more than one element.  The
hypothesis `m < 2 ^ 128` says the mask fits the widest backing storage the
sources instantiate (`u128`). -/
theorem setUnique_cases (m : Nat) (hm : m < 2 ^ 128) :
    (setLen m = 1 → setUnique m = .ok (some (ctz m)) ∧ m = 2 ^ ctz m) ∧
    (setLen m = 0 ↔ m = 0) ∧
    (m = 0 → setUnique m = .error .zero) ∧
    (2 ≤ setLen m → setUnique m = .ok none) := by
  refine ⟨?_, ⟨?_, ?_⟩, ?_, ?_⟩
  · intro h
    refine ⟨?_, setLenAux_one 128 m hm h⟩
    simp [setUnique, h]
  · exact setLenAux_eq_zero 128 m hm
  · intro h; rw [h]; exact setLenAux_zero 128
  · intro h
    rw [h, setUnique]
    simp [setLen, setLenAux_zero]
  · intro h
    rw [setUnique]
    split
    · omega
    · omega
    · rfl

theorem setUnique_cases_witness :
    ((4 : Nat) < 2 ^ 128 ∧ setLen 4 = 1 ∧
      (setUnique 4 = .ok (some (ctz 4)) ∧ (4 : Nat) = 2 ^ ctz 4)) ∧
    (setUnique 0 = .error .zero) ∧
    ((2 : Nat) ≤ setLen 5 ∧ setUnique 5 = .ok none) :=
  ⟨⟨by decide, by decide, (setUnique_cases 4 (by decide)).1 (by decide)⟩,
    (setUnique_cases 0 (by decide)).2.2.1 rfl,
    ⟨by decide, (setUnique_cases 5 (by decide)).2.2.2 (by decide)⟩⟩

/-! ## C9: `try_solve` with an empty strategy list -/

/-- C9: with an empty strategy list `try_solve` returns `false` and the
solver state — grid, logs, deductions, caches, `n_solved` — is returned
entirely unchanged. -/
theorem try_solve_nil (s : StrategySolver) : try_solve s [] = (false, s) := rfl

/-! ## List facts about the grid write-back (towards C1, C4) -/

theorem getD_eq_of_getElem? (l : List Nat) (i a : Nat) (hl : l[i]? = some a) :
    l.getD i 0 = a := by
  rw [List.getD_eq_getElem?_getD, hl]; rfl

theorem getElem?_eq_some_getD (l : List Nat) (i : Nat) (h : i < l.length) :
    l[i]? = some (l.getD i 0) := by
  rcases List.getElem?_eq_some.mpr ⟨h, rfl⟩ with hx
  rw [hx, List.getD_eq_getElem?_getD, hx]; rfl

theorem getD_ext (l1 l2 : List Nat) (hlen : l1.length = l2.length)
    (h : ∀ i, i < l1.length → l1.getD i 0 = l2.getD i 0) : l1 = l2 := by
  apply List.ext_get?
  intro n
  by_cases hn : n < l1.length
  · rw [List.get?_eq_getElem?, List.get?_eq_getElem?, getElem?_eq_some_getD l1 n hn,
      getElem?_eq_some_getD l2 n (hlen ▸ hn), h n hn]
  · rw [List.get?_eq_getElem?, List.get?_eq_getElem?, List.getElem?_eq_none (by omega),
      List.getElem?_eq_none (by omega)]

theorem getD_set_of_lt (g : List Nat) (a d i : Nat) (h : i < g.length) :
    (g.set a d).getD i 0 = if a = i then d else g.getD i 0 := by
  rw [List.getD_eq_getElem?_getD, List.getElem?_set]
  by_cases hai : a = i
  · subst hai
    simp [h]
  · simp [hai, List.getD_eq_getElem?_getD]

theorem writeEntries_length (l : List Candidate) (g : List Nat) :
    (l.foldl (fun g c => g.set c.cell c.digit) g).length = g.length := by
  induction l generalizing g with
  | nil => rfl
  | cons c l ih => rw [List.foldl_cons, ih, List.length_set]

theorem lastPlacedDigit_nil (i dflt : Nat) : lastPlacedDigit [] i dflt = dflt := rfl

theorem lastPlacedDigit_cons (c : Candidate) (l : List Candidate) (i dflt : Nat) :
    lastPlacedDigit (c :: l) i dflt =
      lastPlacedDigit l i (if c.cell = i then c.digit else dflt) := rfl

theorem lastPlacedDigit_append (a b : List Candidate) (i dflt : Nat) :
    lastPlacedDigit (a ++ b) i dflt = lastPlacedDigit b i (lastPlacedDigit a i dflt) := by
  simp [lastPlacedDigit, List.foldl_append]

/-- The grid write-back, cell by cell: after folding the log into the grid,
a cell holds the digit of the last log entry that names it (or its previous
value when no entry does). -/
theorem writeEntries_getD (l : List Candidate) (g : List Nat) (i : Nat)
    (hi : i < g.length) :
    (l.foldl (fun g c => g.set c.cell c.digit) g).getD i 0 =
      lastPlacedDigit l i (g.getD i 0) := by
  induction l generalizing g with
  | nil => rfl
  | cons c l ih =>
    rw [List.foldl_cons, lastPlacedDigit_cons, ← getD_set_of_lt g c.cell c.digit i hi]
    exact ih (g.set c.cell c.digit) (by rw [List.length_set]; exact hi)

/-- What the seeded log of `from_sudoku` writes at cell `i`: the puzzle's
digit when it is a given in range, the default otherwise. -/
theorem lastPlacedDigit_givens (p : List Nat) : ∀ (k i dflt : Nat),
    lastPlacedDigit ((List.enumFrom k p).filterMap
      (fun x => if x.2 = 0 then none else some ⟨x.1, x.2⟩)) i dflt =
    if k ≤ i ∧ i < k + p.length ∧ p.getD (i - k) 0 ≠ 0 then p.getD (i - k) 0 else dflt := by
  induction p with
  | nil =>
    intro k i dflt
    rw [if_neg (by rintro ⟨h1, h2, h3⟩; simp at h2; omega)]
    rfl
  | cons d p ih =>
    intro k i dflt
    have hstep : (List.enumFrom k (d :: p)).filterMap
        (fun x => if x.2 = 0 then none else some (⟨x.1, x.2⟩ : Candidate)) =
        (if d = 0 then [] else [⟨k, d⟩]) ++ (List.enumFrom (k + 1) p).filterMap
          (fun x => if x.2 = 0 then none else some ⟨x.1, x.2⟩) := by
      by_cases hd : d = 0 <;> simp [List.enumFrom, hd]
    have hhead : lastPlacedDigit (if d = 0 then [] else [⟨k, d⟩]) i dflt =
        (if d ≠ 0 ∧ k = i then d else dflt) := by
      by_cases hd : d = 0
      · simp [hd, lastPlacedDigit_nil]
      · rw [if_neg hd, lastPlacedDigit_cons, lastPlacedDigit_nil]
        by_cases hk : k = i
        · rw [if_pos hk, if_pos ⟨hd, hk⟩]
        · rw [if_neg hk, if_neg (fun h => hk h.2)]
    rw [hstep, lastPlacedDigit_append, ih, hhead]
    rcases Nat.lt_or_ge k i with hik | hik
    · rw [show i - k = (i - (k + 1)) + 1 by omega, List.getD_cons_succ, List.length_cons]
      split_ifs <;> omega
    · rw [show i - k = 0 by omega, List.getD_cons_zero, List.length_cons]
      split_ifs <;> omega

theorem replicate_getD (n i a : Nat) (h : i < n) : (List.replicate n a).getD i 0 = a := by
  rw [List.getD_eq_getElem?_getD, List.getElem?_replicate, if_pos h]; rfl

/-! ## C4: the construction round-trip -/

/-- C4: for an 81-cell puzzle, `from_sudoku` followed immediately by
`to_sudoku` reproduces the puzzle: the write-back of the seeded givens over
the all-zero grid is the puzzle itself. -/
theorem to_sudoku_from_sudoku (p : List Nat) (hp : p.length = 81) :
    (to_sudoku (from_sudoku p)).1 = p := by
  show ((from_sudoku p).deduced_entries.foldl
    (fun g c => g.set c.cell c.digit) (List.replicate 81 0)) = p
  apply getD_ext
  · rw [writeEntries_length, List.length_replicate, hp]
  · intro i hi
    rw [writeEntries_length, List.length_replicate] at hi
    rw [writeEntries_getD _ _ _ (by rw [List.length_replicate]; exact hi),
      replicate_getD 81 i 0 hi]
    show lastPlacedDigit ((List.enumFrom 0 p).filterMap _) i 0 = p.getD i 0
    rw [lastPlacedDigit_givens]
    by_cases hz : p.getD (i - 0) 0 ≠ 0
    · rw [if_pos ⟨by omega, by omega, hz⟩, Nat.sub_zero]
    · rw [if_neg (fun h => hz h.2.2)]
      rw [Nat.sub_zero] at hz
      omega

theorem to_sudoku_from_sudoku_witness :
    fullGrid.length = 81 ∧ (to_sudoku (from_sudoku fullGrid)).1 = fullGrid :=
  ⟨by decide, to_sudoku_from_sudoku fullGrid (by decide)⟩

/-! ## C5: the state produced by `from_sudoku` -/

/-- C5 (amended): `from_sudoku` seeds `deduced_entries` with exactly the
given (non-zero) cells of the puzzle, initialises the caches to
nothing-placed / all-candidates-everywhere with zero watermarks, sets
`n_solved = 0` — and leaves the `deductions` log empty: the givens are not
individually recorded as `Deduction::Given` at construction time. -/
theorem from_sudoku_state (p : List Nat) :
    (from_sudoku p).deductions = [] ∧
    (from_sudoku p).eliminated_entries = [] ∧
    (from_sudoku p).n_solved = 0 ∧
    (from_sudoku p).grid = StateW.from (List.replicate 81 0) ∧
    (from_sudoku p).cell_poss_digits = StateW.from (List.replicate 81 DIGIT_ALL) ∧
    (from_sudoku p).house_solved_digits = StateW.from (List.replicate 27 0) ∧
    (from_sudoku p).house_poss_positions =
      StateW.from (List.replicate 27 (List.replicate 9 DIGIT_ALL)) ∧
    ∀ c : Candidate, c ∈ (from_sudoku p).deduced_entries ↔
      (c.cell < p.length ∧ p.getD c.cell 0 = c.digit ∧ c.digit ≠ 0) := by
  refine ⟨rfl, rfl, rfl, rfl, rfl, rfl, rfl, ?_⟩
  intro c
  show c ∈ p.enum.filterMap _ ↔ _
  rw [List.mem_filterMap]
  constructor
  · rintro ⟨⟨i, d⟩, hmem, hf⟩
    rw [List.mem_enum_iff_getElem?] at hmem
    by_cases hd : d = 0
    · simp [hd] at hf
    · rw [if_neg hd] at hf
      cases hf
      rcases List.getElem?_eq_some.mp hmem with ⟨hlt, _⟩
      exact ⟨hlt, getD_eq_of_getElem? p i d hmem, hd⟩
  · rintro ⟨hlt, hd, hne⟩
    rcases c with ⟨cell, digit⟩
    refine ⟨(cell, digit), ?_, ?_⟩
    · rw [List.mem_enum_iff_getElem?]
      show p[cell]? = some digit
      rw [getElem?_eq_some_getD p cell hlt, hd]
    · simp only at hne ⊢
      rw [if_neg hne]

/-- C5 counterexample: on the puzzle with the single given `5` at cell 0 the
seeded log contains that given, but the `deductions` log of the fresh solver
is empty — no `Deduction::Given` is recorded for it. -/
theorem from_sudoku_no_given_deduction :
    (from_sudoku p0).deduced_entries = [⟨0, 5⟩] ∧ (from_sudoku p0).deductions = [] := by
  constructor
  · decide
  · rfl

/-! ## C2: `insert_candidate` -/

/-- C2 (amended): `insert_candidate` fails exactly when the refreshed grid
already holds a *different, non-zero* digit at the candidate's cell, and on
failure `deduced_entries`, `eliminated_entries`, `deductions` and `n_solved`
are unchanged.  On success it records a `Deduction::Given` — but only when
the cell was still empty; re-inserting the digit a cell already holds
succeeds silently without recording anything. -/
theorem insert_candidate_spec (s : StrategySolver) (c : Candidate) :
    ((insert_candidate s c).1 = false ↔
      ((update_grid s).grid.state.getD c.cell 0 ≠ c.digit ∧
        (update_grid s).grid.state.getD c.cell 0 ≠ 0)) ∧
    ((insert_candidate s c).1 = false →
      (insert_candidate s c).2.deduced_entries = s.deduced_entries ∧
      (insert_candidate s c).2.eliminated_entries = s.eliminated_entries ∧
      (insert_candidate s c).2.deductions = s.deductions ∧
      (insert_candidate s c).2.n_solved = s.n_solved) ∧
    ((update_grid s).grid.state.getD c.cell 0 = 0 ∧ c.digit ≠ 0 →
      (insert_candidate s c).1 = true ∧
      (insert_candidate s c).2.deduced_entries = s.deduced_entries ++ [c] ∧
      (insert_candidate s c).2.deductions = s.deductions ++ [Deduction.Given c]) ∧
    ((update_grid s).grid.state.getD c.cell 0 = c.digit →
      (insert_candidate s c).1 = true ∧
      (insert_candidate s c).2.deduced_entries = s.deduced_entries ∧
      (insert_candidate s c).2.deductions = s.deductions) := by
  have hded : (update_grid s).deduced_entries = s.deduced_entries := rfl
  have helim : (update_grid s).eliminated_entries = s.eliminated_entries := rfl
  have hdts : (update_grid s).deductions = s.deductions := rfl
  have hn : (update_grid s).n_solved = s.n_solved := rfl
  by_cases h1 : (update_grid s).grid.state.getD c.cell 0 = c.digit
  · have hr : insert_candidate s c = (true, update_grid s) := by
      simp only [insert_candidate, push_new_candidate]
      rw [if_pos h1]
    rw [hr]
    refine ⟨⟨fun h => Bool.noConfusion h, fun h => absurd h1 h.1⟩,
      fun h => Bool.noConfusion h, ?_, fun _ => ⟨rfl, hded, hdts⟩⟩
    rintro ⟨hz, hdig⟩
    exact absurd (hz ▸ h1) (fun h => hdig h.symm)
  · by_cases h2 : (update_grid s).grid.state.getD c.cell 0 = 0
    · have hr : insert_candidate s c =
          (true,
            { update_grid s with
              grid := { (update_grid s).grid with
                state := (update_grid s).grid.state.set c.cell c.digit }
              deduced_entries := (update_grid s).deduced_entries ++ [c]
              deductions := (update_grid s).deductions ++ [Deduction.Given c] }) := by
        simp only [insert_candidate, push_new_candidate]
        rw [if_neg h1, if_pos h2]
      rw [hr]
      refine ⟨⟨fun h => Bool.noConfusion h, fun h => absurd h2 h.2⟩,
        fun h => Bool.noConfusion h, fun _ => ⟨rfl, by rw [hded], by rw [hdts]⟩, ?_⟩
      intro h
      exact absurd h h1
    · have hr : insert_candidate s c = (false, update_grid s) := by
        simp only [insert_candidate, push_new_candidate]
        rw [if_neg h1, if_neg h2]
      rw [hr]
      exact ⟨⟨fun _ => ⟨h1, h2⟩, fun _ => rfl⟩, fun _ => ⟨hded, helim, hdts, hn⟩,
        fun h => absurd h.1 h2, fun h => absurd h h1⟩

theorem insert_candidate_spec_witness :
    ((insert_candidate (from_sudoku p0) ⟨1, 3⟩).1 = true ∧
      (insert_candidate (from_sudoku p0) ⟨1, 3⟩).2.deduced_entries =
        (from_sudoku p0).deduced_entries ++ [⟨1, 3⟩] ∧
      (insert_candidate (from_sudoku p0) ⟨1, 3⟩).2.deductions =
        (from_sudoku p0).deductions ++ [Deduction.Given ⟨1, 3⟩]) ∧
    ((insert_candidate (from_sudoku p0) ⟨0, 7⟩).1 = false ∧
      (insert_candidate (from_sudoku p0) ⟨0, 7⟩).2.deductions =
        (from_sudoku p0).deductions) :=
  ⟨(insert_candidate_spec (from_sudoku p0) ⟨1, 3⟩).2.2.1 ⟨by decide, by decide⟩,
    (insert_candidate_spec (from_sudoku p0) ⟨0, 7⟩).1.mpr ⟨by decide, by decide⟩,
    ((insert_candidate_spec (from_sudoku p0) ⟨0, 7⟩).2.1
      ((insert_candidate_spec (from_sudoku p0) ⟨0, 7⟩).1.mpr
        ⟨by decide, by decide⟩)).2.2.1⟩

/-- C2 counterexample: inserting the digit a cell already contains succeeds
(`Ok`) yet records no `Deduction::Given` — the claim that every non-failing
`insert_candidate` records one is false. -/
theorem insert_candidate_dup_no_given :
    (insert_candidate (from_sudoku p0) ⟨0, 5⟩).1 = true ∧
    (insert_candidate (from_sudoku p0) ⟨0, 5⟩).2.deductions = [] := by
  constructor
  · decide
  · decide

/-! ## The append-only discipline of the logs (towards C3, C6) -/

theorem extends_rfl (s : StrategySolver) : Extends s s :=
  ⟨⟨[], by simp⟩, ⟨[], by simp⟩, ⟨[], by simp⟩, Nat.le_refl _⟩

theorem extends_trans {s t u : StrategySolver} (h1 : Extends s t) (h2 : Extends t u) :
    Extends s u := by
  obtain ⟨⟨a1, ha1⟩, ⟨b1, hb1⟩, ⟨c1, hc1⟩, hn1⟩ := h1
  obtain ⟨⟨a2, ha2⟩, ⟨b2, hb2⟩, ⟨c2, hc2⟩, hn2⟩ := h2
  exact ⟨⟨a1 ++ a2, by rw [ha2, ha1, List.append_assoc]⟩,
    ⟨b1 ++ b2, by rw [hb2, hb1, List.append_assoc]⟩,
    ⟨c1 ++ c2, by rw [hc2, hc1, List.append_assoc]⟩, Nat.le_trans hn1 hn2⟩

theorem extends_of_eq {s t : StrategySolver}
    (h1 : t.deduced_entries = s.deduced_entries)
    (h2 : t.eliminated_entries = s.eliminated_entries)
    (h3 : t.deductions = s.deductions) (h4 : s.n_solved ≤ t.n_solved) : Extends s t :=
  ⟨⟨[], by simp [h1]⟩, ⟨[], by simp [h2]⟩, ⟨[], by simp [h3]⟩, h4⟩

theorem extends_andThen {s : StrategySolver} {r : StrategySolver × Bool}
    {k : StrategySolver → StrategySolver × Bool} (h1 : Extends s r.1)
    (h2 : ∀ t, Extends t (k t).1) : Extends s (andThen r k).1 := by
  unfold andThen
  by_cases hb : r.2
  · rw [if_pos hb]; exact extends_trans h1 (h2 r.1)
  · rw [if_neg hb]; exact h1

theorem extends_foldl {α : Type} {f : StrategySolver → α → StrategySolver}
    (hf : ∀ t a, Extends t (f t a)) :
    ∀ (l : List α) (s : StrategySolver), Extends s (l.foldl f s) := by
  intro l
  induction l with
  | nil => intro s; exact extends_rfl s
  | cons a l ih => intro s; exact extends_trans (hf s a) (ih (f s a))

theorem push_new_candidate_extends (s : StrategySolver) (c : Candidate)
    (strat : Deduction) : Extends s (push_new_candidate s c strat).1 := by
  unfold push_new_candidate
  by_cases h1 : s.grid.state.getD c.cell 0 = c.digit
  · rw [if_pos h1]; exact extends_rfl s
  · rw [if_neg h1]
    by_cases h2 : s.grid.state.getD c.cell 0 = 0
    · rw [if_pos h2]
      exact ⟨⟨[c], rfl⟩, ⟨[], by simp⟩, ⟨[strat], rfl⟩, Nat.le_refl _⟩
    · rw [if_neg h2]; exact extends_rfl s

theorem remove_impossibilities_extends (s : StrategySolver) (cell impossible : Nat)
    (fns : Bool) : Extends s (remove_impossibilities s cell impossible fns).1 := by
  unfold remove_impossibilities
  have hmid : Extends s
      { s with cell_poss_digits := { s.cell_poss_digits with
          state := s.cell_poss_digits.state.set cell
            (setWithout (cpAt s cell) impossible) } } :=
    extends_of_eq rfl rfl rfl (Nat.le_refl _)
  by_cases hf : fns
  · rw [if_pos hf]
    split
    · exact hmid
    · exact hmid
    · exact extends_trans hmid (push_new_candidate_extends _ _ _)
  · rw [if_neg hf]
    split <;> exact hmid

theorem elimApplyLoop_extends (elims : List Candidate) (fns : Bool) :
    ∀ s : StrategySolver, Extends s (elimApplyLoop elims fns s).1 := by
  induction elims with
  | nil => intro s; exact extends_rfl s
  | cons c rest ih =>
    intro s
    exact extends_andThen (remove_impossibilities_extends s c.cell c.digit_set fns)
      (fun t => ih t)

theorem insert_candidate_cp_zs_extends (c : Candidate) (s : StrategySolver) :
    Extends s (insert_candidate_cp_zs c s) :=
  extends_of_eq rfl rfl rfl (Nat.le_succ _)

theorem batchConsumeLoop_extends : ∀ (fuel : Nat) (s : StrategySolver),
    Extends s (batchConsumeLoop fuel s).1 := by
  intro fuel
  induction fuel with
  | zero => intro s; exact extends_rfl s
  | succ f ih =>
    intro s
    unfold batchConsumeLoop
    split
    · exact extends_rfl s
    · dsimp only
      split
      · exact extends_trans (extends_of_eq rfl rfl rfl (Nat.le_refl _)) (ih _)
      · split
        · exact extends_of_eq rfl rfl rfl (Nat.le_refl _)
        · refine extends_trans ?_ (ih _)
          refine extends_trans ?_ (insert_candidate_cp_zs_extends _ _)
          exact extends_of_eq rfl rfl rfl (Nat.le_refl _)

theorem batchCellsLoop_extends (cells : List Nat) (fns : Bool) :
    ∀ s : StrategySolver, Extends s (batchCellsLoop cells fns s).1 := by
  induction cells with
  | nil => intro s; exact extends_rfl s
  | cons cell rest ih =>
    intro s
    unfold batchCellsLoop
    split
    · exact ih s
    · exact extends_andThen (remove_impossibilities_extends _ _ _ _) (fun t => ih t)

theorem batch_insert_entries_extends (fns : Bool) (s : StrategySolver) :
    Extends s (batch_insert_entries fns s).1 :=
  extends_andThen (batchConsumeLoop_extends _ s) (fun t => batchCellsLoop_extends _ _ t)

theorem singlyNeighborsLoop_extends (cells : List Nat) (mask : Nat) (fns : Bool) :
    ∀ s : StrategySolver, Extends s (singlyNeighborsLoop cells mask fns s).1 := by
  induction cells with
  | nil => intro s; exact extends_rfl s
  | cons cell rest ih =>
    intro s
    unfold singlyNeighborsLoop
    split
    · exact extends_andThen (remove_impossibilities_extends _ _ _ _) (fun t => ih t)
    · exact ih s

theorem singlyLoop_extends : ∀ (fuel : Nat) (fns : Bool) (s : StrategySolver),
    Extends s (singlyLoop fuel fns s).1 := by
  intro fuel
  induction fuel with
  | zero => intro _ s; exact extends_rfl s
  | succ f ih =>
    intro fns s
    unfold singlyLoop
    split
    · exact extends_rfl s
    · dsimp only
      split
      · exact extends_trans (extends_of_eq rfl rfl rfl (Nat.le_refl _)) (ih fns _)
      · split
        · exact extends_of_eq rfl rfl rfl (Nat.le_refl _)
        · refine extends_andThen ?_ (fun t => ?_)
          · refine extends_trans ?_ (singlyNeighborsLoop_extends _ _ _ _)
            refine extends_trans ?_ (insert_candidate_cp_zs_extends _ _)
            exact extends_of_eq rfl rfl rfl (Nat.le_refl _)
          · dsimp only
            split
            · exact extends_rfl t
            · exact ih fns t

theorem insert_entries_singly_extends (fns : Bool) (s : StrategySolver) :
    Extends s (insert_entries_singly fns s).1 :=
  singlyLoop_extends _ fns s

theorem insertLoop_extends : ∀ (fuel : Nat) (fns : Bool) (s : StrategySolver),
    Extends s (insertLoop fuel fns s).1 := by
  intro fuel
  induction fuel with
  | zero => intro _ s; exact extends_rfl s
  | succ f ih =>
    intro fns s
    unfold insertLoop
    split
    · exact extends_rfl s
    all_goals first
      | exact extends_andThen (insert_entries_singly_extends fns s) (fun t => ih fns t)
      | exact extends_andThen (batch_insert_entries_extends fns s) (fun t => ih fns t)

theorem insert_entries_extends (fns : Bool) (s : StrategySolver) :
    Extends s (insert_entries fns s).1 :=
  extends_andThen (batch_insert_entries_extends fns s)
    (fun t => insertLoop_extends _ fns t)

theorem update_cell_poss_house_solved_extends (fns : Bool) (s : StrategySolver) :
    Extends s (update_cell_poss_house_solved fns s).1 :=
  extends_andThen (elimApplyLoop_extends _ fns s)
    (fun _ => extends_trans (extends_of_eq rfl rfl rfl (Nat.le_refl _))
      (insert_entries_extends fns _))

theorem update_house_poss_positions_frame (s : StrategySolver) :
    (update_house_poss_positions s).deduced_entries = s.deduced_entries ∧
    (update_house_poss_positions s).eliminated_entries = s.eliminated_entries ∧
    (update_house_poss_positions s).deductions = s.deductions ∧
    (update_house_poss_positions s).n_solved = s.n_solved ∧
    (update_house_poss_positions s).grid = s.grid ∧
    (update_house_poss_positions s).cell_poss_digits = s.cell_poss_digits ∧
    (update_house_poss_positions s).house_solved_digits = s.house_solved_digits :=
  ⟨rfl, rfl, rfl, rfl, rfl, rfl, rfl⟩

theorem update_house_poss_positions_extends (s : StrategySolver) :
    Extends s (update_house_poss_positions s) :=
  extends_of_eq rfl rfl rfl (Nat.le_refl _)

theorem extends_append_deduced (s : StrategySolver) (c : Candidate) :
    Extends s { s with deduced_entries := s.deduced_entries ++ [c] } :=
  ⟨⟨[c], rfl⟩, ⟨[], by simp⟩, ⟨[], by simp⟩, Nat.le_refl _⟩

theorem extends_append_eliminated (s : StrategySolver) (c : Candidate) :
    Extends s { s with eliminated_entries := s.eliminated_entries ++ [c] } :=
  ⟨⟨[], by simp⟩, ⟨[c], rfl⟩, ⟨[], by simp⟩, Nat.le_refl _⟩

theorem extends_append_deduction (s : StrategySolver) (d : Deduction) :
    Extends s { s with deductions := s.deductions ++ [d] } :=
  ⟨⟨[], by simp⟩, ⟨[], by simp⟩, ⟨[d], rfl⟩, Nat.le_refl _⟩

theorem nsScan_extends (saf : Bool) : ∀ (items : List (Nat × Nat)) (s : StrategySolver),
    Extends s (nsScan items saf s).1 := by
  intro items
  induction items with
  | nil => intro s; exact extends_rfl s
  | cons item rest ih =>
    intro s
    rcases item with ⟨cell, poss⟩
    unfold nsScan
    dsimp only
    split
    · exact ih s
    · refine extends_andThen (push_new_candidate_extends _ _ _) (fun t => ?_)
      dsimp only
      split
      · exact extends_append_deduced t _
      · exact extends_trans (extends_append_deduced t _) (ih _)

theorem find_naked_singles_extends (saf : Bool) (s : StrategySolver) :
    Extends s (find_naked_singles saf s).1 :=
  extends_andThen (update_cell_poss_house_solved_extends false s)
    (fun t => extends_andThen (nsScan_extends saf _ t)
      (fun u => update_cell_poss_house_solved_extends false u))

theorem extends_fst_of_eq {s : StrategySolver} {β : Type} {call : StrategySolver × β}
    {u : StrategySolver} {b : β} (heq : call = (u, b)) (h : Extends s call.1) :
    Extends s u := by
  rw [heq] at h
  exact h

theorem hsCellLoop_extends : ∀ (cells : List Nat) (house singles : Nat) (saf : Bool)
    (s : StrategySolver), Extends s (hsCellLoop cells house singles saf s).1 := by
  intro cells
  induction cells with
  | nil => intro _ _ _ s; exact extends_rfl s
  | cons cell rest ih =>
    intro house singles saf s
    unfold hsCellLoop
    dsimp only
    split
    · exact ih _ _ _ s
    · exact extends_rfl s
    · split
      · next u heq =>
        exact extends_fst_of_eq heq (push_new_candidate_extends _ _ _)
      · next u heq =>
        have hp : Extends s u := extends_fst_of_eq heq (push_new_candidate_extends _ _ _)
        split
        · exact hp
        · split
          · exact hp
          · exact extends_trans hp (ih _ _ _ u)

theorem hsHouseLoop_extends : ∀ (houses : List Nat) (saf : Bool) (s : StrategySolver),
    Extends s (hsHouseLoop houses saf s).1 := by
  intro houses
  induction houses with
  | nil => intro _ s; exact extends_rfl s
  | cons h rest ih =>
    intro saf s
    unfold hsHouseLoop
    dsimp only
    split
    · exact extends_rfl s
    · split
      · exact ih saf s
      · split
        · next u heq =>
          exact extends_fst_of_eq heq (hsCellLoop_extends _ _ _ _ _)
        · next u heq =>
          exact extends_fst_of_eq heq (hsCellLoop_extends _ _ _ _ _)
        · next u heq =>
          exact extends_trans (extends_fst_of_eq heq (hsCellLoop_extends _ _ _ _ _))
            (ih saf u)

theorem find_hidden_singles_extends (saf : Bool) (s : StrategySolver) :
    Extends s (find_hidden_singles saf s).1 :=
  extends_andThen (update_cell_poss_house_solved_extends false s)
    (fun t => hsHouseLoop_extends _ saf t)

theorem lcNeighborLoop_extends : ∀ (nbs : List Nat) (t : Nat) (poss : List Nat)
    (uniques : Nat) (s : StrategySolver), Extends s (lcNeighborLoop t poss nbs uniques s) := by
  intro nbs
  induction nbs with
  | nil => intro _ _ _ s; exact extends_rfl s
  | cons nb rest ih =>
    intro t poss uniques s
    unfold lcNeighborLoop
    dsimp only
    split
    · exact ih t poss uniques s
    · refine extends_trans ?_ (ih t poss uniques _)
      refine extends_foldl (fun u cell => ?_) _ s
      exact extends_foldl (fun v _ => extends_append_eliminated v _) _ u

theorem lcPairLoop_extends : ∀ (pairs : List (Nat × List Nat)) (t i : Nat)
    (poss : List Nat) (saf : Bool) (s : StrategySolver),
    Extends s (lcPairLoop t i poss pairs saf s).1 := by
  intro pairs
  induction pairs with
  | nil => intro _ _ _ _ s; exact extends_rfl s
  | cons pair rest ih =>
    intro t i poss saf s
    rcases pair with ⟨uniques, nbs⟩
    unfold lcPairLoop
    dsimp only
    split
    · exact ih t i poss saf s
    · split
      · split
        · exact extends_trans (lcNeighborLoop_extends nbs t poss uniques s)
            (extends_append_deduction _ _)
        · exact extends_trans
            (extends_trans (lcNeighborLoop_extends nbs t poss uniques s)
              (extends_append_deduction _ _))
            (ih t i poss saf _)
      · exact extends_trans (lcNeighborLoop_extends nbs t poss uniques s)
          (ih t i poss saf _)

theorem lcMinilineLoop_extends : ∀ (is : List Nat) (t : Nat)
    (poss lineU fieldU : List Nat) (saf : Bool) (s : StrategySolver),
    Extends s (lcMinilineLoop t poss lineU fieldU is saf s).1 := by
  intro is
  induction is with
  | nil => intro _ _ _ _ _ s; exact extends_rfl s
  | cons i rest ih =>
    intro t poss lineU fieldU saf s
    unfold lcMinilineLoop
    dsimp only
    split
    · next u heq =>
      exact extends_fst_of_eq heq (lcPairLoop_extends _ _ _ _ _ _)
    · next u heq =>
      exact extends_fst_of_eq heq (lcPairLoop_extends _ _ _ _ _ _)
    · next u heq =>
      exact extends_trans (extends_fst_of_eq heq (lcPairLoop_extends _ _ _ _ _ _))
        (ih t poss lineU fieldU saf u)

theorem lcChuteLoop_extends : ∀ (ts : List Nat) (saf : Bool) (s : StrategySolver),
    Extends s (lcChuteLoop ts saf s).1 := by
  intro ts
  induction ts with
  | nil => intro _ s; exact extends_rfl s
  | cons t rest ih =>
    intro saf s
    unfold lcChuteLoop
    dsimp only
    split
    · next u heq =>
      exact extends_fst_of_eq heq (lcMinilineLoop_extends _ _ _ _ _ _ _)
    · next u heq =>
      exact extends_fst_of_eq heq (lcMinilineLoop_extends _ _ _ _ _ _ _)
    · next u heq =>
      exact extends_trans (extends_fst_of_eq heq (lcMinilineLoop_extends _ _ _ _ _ _ _))
        (ih saf u)

theorem find_locked_candidates_extends (saf : Bool) (s : StrategySolver) :
    Extends s (find_locked_candidates saf s).1 :=
  extends_andThen (update_cell_poss_house_solved_extends false s)
    (fun t => lcChuteLoop_extends _ saf t)

theorem nsSubsetEliminate_extends (house total stack : Nat) (s : StrategySolver) :
    Extends s (nsSubsetEliminate house total stack s) := by
  refine extends_foldl (fun u pos => ?_) _ s
  exact extends_foldl (fun v _ => extends_append_eliminated v _) _ u

theorem nsWalk_extends : ∀ (fuel : Nat),
    (∀ house size saf total iter stack s,
      Extends s (nsWalk fuel house size saf total iter stack s).1) ∧
    (∀ house size saf total iter stack s,
      Extends s (nsWalkLoop fuel house size saf total iter stack s).1) := by
  intro fuel
  induction fuel with
  | zero =>
    constructor
    · intro house size saf total iter stack s
      unfold nsWalk
      exact extends_rfl s
    · intro house size saf total iter stack s
      unfold nsWalkLoop
      exact extends_rfl s
  | succ f ih =>
    constructor
    · intro house size saf total iter stack s
      unfold nsWalk
      split
      · exact extends_rfl s
      · split
        · dsimp only
          split
          · have hel := extends_trans (nsSubsetEliminate_extends house total stack s)
              (extends_append_deduction (nsSubsetEliminate house total stack s)
                (Deduction.NakedSubsets house stack total
                  (s.eliminated_entries.length,
                    (nsSubsetEliminate house total stack s).eliminated_entries.length)))
            split
            · exact hel
            · exact extends_trans hel (ih.2 _ _ _ _ _ _ _)
          · exact extends_trans (nsSubsetEliminate_extends house total stack s)
              (ih.2 _ _ _ _ _ _ _)
        · exact ih.2 _ _ _ _ _ _ s
    · intro house size saf total iter stack s
      unfold nsWalkLoop
      split
      · exact extends_rfl s
      · dsimp only
        split
        · exact ih.2 _ _ _ _ _ _ s
        · split
          · next u heq =>
            exact extends_fst_of_eq heq (ih.1 _ _ _ _ _ _ _)
          · next u heq =>
            exact extends_trans (extends_fst_of_eq heq (ih.1 _ _ _ _ _ _ _))
              (ih.2 _ _ _ _ _ _ u)

theorem nsHouseLoop_extends : ∀ (houses : List Nat) (size : Nat) (saf : Bool)
    (s : StrategySolver), Extends s (nsHouseLoop houses size saf s).1 := by
  intro houses
  induction houses with
  | nil => intro _ _ s; exact extends_rfl s
  | cons h rest ih =>
    intro size saf s
    unfold nsHouseLoop
    split
    · exact ih size saf s
    · split
      · next u heq =>
        exact extends_fst_of_eq heq ((nsWalk_extends 512).1 _ _ _ _ _ _ _)
      · next u heq =>
        exact extends_trans (extends_fst_of_eq heq ((nsWalk_extends 512).1 _ _ _ _ _ _ _))
          (ih size saf u)

theorem find_naked_subsets_extends (size : Nat) (saf : Bool) (s : StrategySolver) :
    Extends s (find_naked_subsets size saf s).1 :=
  extends_andThen (update_cell_poss_house_solved_extends false s)
    (fun t => nsHouseLoop_extends _ size saf t)

theorem hsSubsetEliminate_extends (house total stack : Nat) (s : StrategySolver) :
    Extends s (hsSubsetEliminate house total stack s) := by
  refine extends_foldl (fun u d => ?_) _ s
  exact extends_foldl (fun v _ => extends_append_eliminated v _) _ u

theorem hdWalk_extends : ∀ (fuel : Nat),
    (∀ house size saf total iter stack s,
      Extends s (hdWalk fuel house size saf total iter stack s).1) ∧
    (∀ house size saf total iter stack s,
      Extends s (hdWalkLoop fuel house size saf total iter stack s).1) := by
  intro fuel
  induction fuel with
  | zero =>
    constructor
    · intro house size saf total iter stack s
      unfold hdWalk
      exact extends_rfl s
    · intro house size saf total iter stack s
      unfold hdWalkLoop
      exact extends_rfl s
  | succ f ih =>
    constructor
    · intro house size saf total iter stack s
      unfold hdWalk
      split
      · exact extends_rfl s
      · split
        · dsimp only
          split
          · have hel := extends_trans (hsSubsetEliminate_extends house total stack s)
              (extends_append_deduction (hsSubsetEliminate house total stack s)
                (Deduction.HiddenSubsets house stack total
                  (s.eliminated_entries.length,
                    (hsSubsetEliminate house total stack s).eliminated_entries.length)))
            split
            · exact hel
            · exact extends_trans hel (ih.2 _ _ _ _ _ _ _)
          · exact extends_trans (hsSubsetEliminate_extends house total stack s)
              (ih.2 _ _ _ _ _ _ _)
        · exact ih.2 _ _ _ _ _ _ s
    · intro house size saf total iter stack s
      unfold hdWalkLoop
      split
      · exact extends_rfl s
      · dsimp only
        split
        · exact ih.2 _ _ _ _ _ _ s
        · split
          · next u heq =>
            exact extends_fst_of_eq heq (ih.1 _ _ _ _ _ _ _)
          · next u heq =>
            exact extends_trans (extends_fst_of_eq heq (ih.1 _ _ _ _ _ _ _))
              (ih.2 _ _ _ _ _ _ u)

theorem hdHouseLoop_extends : ∀ (houses : List Nat) (size : Nat) (saf : Bool)
    (s : StrategySolver), Extends s (hdHouseLoop houses size saf s).1 := by
  intro houses
  induction houses with
  | nil => intro _ _ s; exact extends_rfl s
  | cons h rest ih =>
    intro size saf s
    unfold hdHouseLoop
    split
    · exact ih size saf s
    · split
      · next u heq =>
        exact extends_fst_of_eq heq ((hdWalk_extends 512).1 _ _ _ _ _ _ _)
      · next u heq =>
        exact extends_trans (extends_fst_of_eq heq ((hdWalk_extends 512).1 _ _ _ _ _ _ _))
          (ih size saf u)

theorem find_hidden_subsets_extends (size : Nat) (saf : Bool) (s : StrategySolver) :
    Extends s (find_hidden_subsets size saf s).1 :=
  extends_trans (update_house_poss_positions_extends s)
    (hdHouseLoop_extends _ size saf _)

theorem bfEliminate_extends (digit all_lines stack uni : Nat) (s : StrategySolver) :
    Extends s (bfEliminate digit all_lines stack uni s) := by
  refine extends_foldl (fun u line => ?_) _ s
  refine extends_foldl (fun v pos => ?_) _ u
  dsimp only
  split
  · exact extends_append_eliminated v _
  · exact extends_rfl v

theorem bfWalk_extends : ∀ (fuel : Nat),
    (∀ digit goal all_lines saf stack iter uni s,
      Extends s (bfWalk fuel digit goal all_lines saf stack iter uni s).1) ∧
    (∀ digit goal all_lines saf stack iter uni s,
      Extends s (bfWalkLoop fuel digit goal all_lines saf stack iter uni s).1) := by
  intro fuel
  induction fuel with
  | zero =>
    constructor
    · intro digit goal all_lines saf stack iter uni s
      unfold bfWalk
      exact extends_rfl s
    · intro digit goal all_lines saf stack iter uni s
      unfold bfWalkLoop
      exact extends_rfl s
  | succ f ih =>
    constructor
    · intro digit goal all_lines saf stack iter uni s
      unfold bfWalk
      split
      · split
        · exact extends_rfl s
        · dsimp only
          split
          · have hel := extends_trans (bfEliminate_extends digit all_lines stack uni s)
              (extends_append_deduction (bfEliminate digit all_lines stack uni s)
                (Deduction.BasicFish stack digit uni
                  (s.eliminated_entries.length,
                    (bfEliminate digit all_lines stack uni s).eliminated_entries.length)))
            split
            · exact hel
            · exact extends_trans hel (ih.2 _ _ _ _ _ _ _ _)
          · exact extends_trans (bfEliminate_extends digit all_lines stack uni s)
              (ih.2 _ _ _ _ _ _ _ _)
      · exact ih.2 _ _ _ _ _ _ _ s
    · intro digit goal all_lines saf stack iter uni s
      unfold bfWalkLoop
      split
      · exact extends_rfl s
      · dsimp only
        split
        · exact ih.2 _ _ _ _ _ _ _ s
        · split
          · next u heq =>
            exact extends_fst_of_eq heq (ih.1 _ _ _ _ _ _ _ _)
          · next u heq =>
            exact extends_trans (extends_fst_of_eq heq (ih.1 _ _ _ _ _ _ _ _))
              (ih.2 _ _ _ _ _ _ _ u)

theorem bfDigitLoop_extends : ∀ (digits : List Nat) (max_size : Nat) (saf : Bool)
    (s : StrategySolver), Extends s (bfDigitLoop digits max_size saf s).1 := by
  intro digits
  induction digits with
  | nil => intro _ _ s; exact extends_rfl s
  | cons d rest ih =>
    intro max_size saf s
    unfold bfDigitLoop
    split
    · next u heq =>
      exact extends_fst_of_eq heq ((bfWalk_extends 512).1 _ _ _ _ _ _ _ _)
    · next u heq =>
      have h1 : Extends s u := extends_fst_of_eq heq ((bfWalk_extends 512).1 _ _ _ _ _ _ _ _)
      split
      · next v heq2 =>
        exact extends_trans h1 (extends_fst_of_eq heq2 ((bfWalk_extends 512).1 _ _ _ _ _ _ _ _))
      · next v heq2 =>
        exact extends_trans
          (extends_trans h1
            (extends_fst_of_eq heq2 ((bfWalk_extends 512).1 _ _ _ _ _ _ _ _)))
          (ih max_size saf v)

theorem find_fish_extends (max_size : Nat) (saf : Bool) (s : StrategySolver) :
    Extends s (find_fish max_size saf s).1 :=
  extends_trans (update_house_poss_positions_extends s)
    (extends_andThen (update_cell_poss_house_solved_extends false _)
      (fun t => bfDigitLoop_extends _ max_size saf t))

/-! ## The singles-chain routine is inert (towards C10)

The guard `if cell_linked[cell] <= link_nr { return }` of `follow_links`
fires on every call the routine makes — `cell_linked` starts all-zero and
`link_nr` counts up from zero — so no cell is ever coloured and both
elimination rules scan an uncoloured chain. -/

theorem getDReplicate {α : Type} (n i : Nat) (a d : α) :
    (List.replicate n a).getD i d = if i < n then a else d := by
  rw [List.getD_eq_getElem?_getD, List.getElem?_replicate]
  by_cases h : i < n
  · rw [if_pos h, if_pos h]; rfl
  · rw [if_neg h, if_neg h]; rfl

theorem follow_links_noop (fuel digit cell : Nat) (is_a : Bool) (s : StrategySolver)
    (colors : List Colour) (link_nr : Nat) (linked : List Nat)
    (h : linked.getD cell 0 ≤ link_nr) :
    follow_links fuel digit cell is_a s colors link_nr linked = (colors, linked) := by
  cases fuel with
  | zero => unfold follow_links; rfl
  | succ f => unfold follow_links; rw [if_pos h]

theorem setReplicate {α : Type} : ∀ (n i : Nat) (a : α),
    (List.replicate n a).set i a = List.replicate n a := by
  intro n
  induction n with
  | zero => intro i a; rfl
  | succ m ih =>
    intro i a
    rw [List.replicate_succ]
    cases i with
    | zero => rfl
    | succ j => rw [List.set_cons_succ, ih j a]

theorem scChainBuild_noop : ∀ (houses : List Nat) (digit : Nat) (s : StrategySolver)
    (touched : List Bool) (link_nr : Nat), ∃ n,
    scChainBuild houses digit s touched link_nr (List.replicate 81 Colour.Uncoloured)
      (List.replicate 81 0) =
    (n, List.replicate 81 Colour.Uncoloured, List.replicate 81 0) := by
  intro houses
  induction houses with
  | nil => intro digit s touched link_nr; exact ⟨link_nr, rfl⟩
  | cons h rest ih =>
    intro digit s touched link_nr
    unfold scChainBuild
    dsimp only
    split
    · split
      · exact ih digit s touched link_nr
      · rw [follow_links_noop 512 digit _ true s _ link_nr _
          (by rw [getDReplicate]; split <;> omega)]
        exact ih digit s _ (link_nr + 1)
    · exact ih digit s touched link_nr

theorem scHouseColors_aux : ∀ (l : List (Nat × Nat)) (hc : List Colour),
    l.foldl (fun hc x => hc.set x.1
      ((List.replicate 81 Colour.Uncoloured).getD x.2 Colour.Uncoloured)) hc =
    l.foldl (fun hc x => hc.set x.1 Colour.Uncoloured) hc := by
  intro l
  induction l with
  | nil => intro hc; rfl
  | cons x rest ih =>
    intro hc
    rw [List.foldl_cons, List.foldl_cons, getDReplicate, ite_self, ih]

theorem foldl_set_uncoloured : ∀ (l : List (Nat × Nat)),
    l.foldl (fun hc x => hc.set x.1 Colour.Uncoloured)
      (List.replicate 9 Colour.Uncoloured) = List.replicate 9 Colour.Uncoloured := by
  intro l
  induction l with
  | nil => rfl
  | cons x rest ih => rw [List.foldl_cons, setReplicate, ih]

theorem scHouseColors_noop (h ln : Nat) :
    scHouseColors h ln (List.replicate 81 Colour.Uncoloured) (List.replicate 81 0) =
      List.replicate 9 Colour.Uncoloured := by
  unfold scHouseColors
  rw [scHouseColors_aux, foldl_set_uncoloured]

theorem scRule1Loop_noop : ∀ (houses : List Nat) (digit ln : Nat) (s : StrategySolver),
    scRule1Loop houses digit ln (List.replicate 81 Colour.Uncoloured)
      (List.replicate 81 0) s = (s, true) := by
  intro houses
  induction houses with
  | nil => intro _ _ s; rfl
  | cons h rest ih =>
    intro digit ln s
    unfold scRule1Loop
    dsimp only
    rw [scHouseColors_noop]
    rw [show scCountAB (List.replicate 9 Colour.Uncoloured) = (0, 0) from rfl]
    rw [if_neg (by decide), if_neg (by decide), if_neg (by decide)]
    exact ih digit ln s

theorem scRule2_noop (digit ln : Nat) (s : StrategySolver) :
    scRule2 digit ln (List.replicate 81 Colour.Uncoloured) (List.replicate 81 0) s = s := by
  unfold scRule2
  rw [show (List.range 81).filter
      (fun cell => (List.replicate 81 (0 : Nat)).getD cell 0 == ln
        && (List.replicate 81 Colour.Uncoloured).getD cell Colour.Uncoloured
          != Colour.Uncoloured) = [] by
    rw [List.filter_eq_nil_iff]
    intro cell _
    rw [getDReplicate, getDReplicate, ite_self, ite_self]
    simp]
  rfl

theorem scLinkLoop_noop : ∀ (lns : List Nat) (digit : Nat) (s : StrategySolver),
    scLinkLoop lns digit (List.replicate 81 Colour.Uncoloured)
      (List.replicate 81 0) s = (s, true) := by
  intro lns
  induction lns with
  | nil => intro _ s; rfl
  | cons ln rest ih =>
    intro digit s
    unfold scLinkLoop
    rw [scRule1Loop_noop]
    dsimp only
    rw [scRule2_noop]
    exact ih digit s

theorem scDigitLoop_noop : ∀ (digits : List Nat) (s : StrategySolver),
    scDigitLoop digits s = (s, true) := by
  intro digits
  induction digits with
  | nil => intro s; rfl
  | cons d rest ih =>
    intro s
    unfold scDigitLoop
    dsimp only
    obtain ⟨n, hn⟩ := scChainBuild_noop (List.range 27) d s (List.replicate 81 false) 0
    rw [hn]
    dsimp only
    rw [scLinkLoop_noop]
    exact ih s

/-- `find_singles_chain` never changes the solver at all and always
returns `Ok`. -/
theorem find_singles_chain_id (s : StrategySolver) : find_singles_chain s = (s, true) :=
  scDigitLoop_noop _ s

theorem find_singles_chain_extends (s : StrategySolver) :
    Extends s (find_singles_chain s).1 := by
  rw [find_singles_chain_id]
  exact extends_rfl s

/-! ## C10: the singles-chain routine and the deductions log -/

/-- C10: `find_singles_chain` never appends a record to the `deductions`
log: the trace is identical before and after the call, so none of its
(would-be) eliminations is ever attributed to a SinglesChain deduction.
(In fact the routine's `follow_links` guard makes it leave the whole solver
untouched.) -/
theorem find_singles_chain_deductions (s : StrategySolver) :
    (find_singles_chain s).1.deductions = s.deductions ∧
    (find_singles_chain s).1.eliminated_entries = s.eliminated_entries := by
  rw [find_singles_chain_id]
  exact ⟨rfl, rfl⟩

/-! ## The strategy loop only appends (towards C3, C6) -/

theorem deduce_extends (st : Strategy) (b : Bool) (s : StrategySolver) :
    Extends s (st.deduce b s).1 := by
  cases st
  · exact find_naked_singles_extends b s
  · exact find_hidden_singles_extends b s
  · exact find_locked_candidates_extends b s
  · exact find_naked_subsets_extends 2 b s
  · exact find_naked_subsets_extends 3 b s
  · exact find_naked_subsets_extends 4 b s
  · exact find_hidden_subsets_extends 2 b s
  · exact find_hidden_subsets_extends 3 b s
  · exact find_hidden_subsets_extends 4 b s
  · exact find_fish_extends 2 b s
  · exact find_fish_extends 3 b s
  · exact find_fish_extends 4 b s
  · exact find_singles_chain_extends s

theorem restLoop_extends : ∀ (sts : List Strategy) (nd ne : Nat) (s : StrategySolver),
    Extends s (restLoop sts nd ne s).1 := by
  intro sts
  induction sts with
  | nil => intro _ _ s; exact extends_rfl s
  | cons st rest ih =>
    intro nd ne s
    unfold restLoop
    split
    · next u heq =>
      exact extends_fst_of_eq heq (deduce_extends st true s)
    · next u heq =>
      have h1 : Extends s u := extends_fst_of_eq heq (deduce_extends st true s)
      split
      · exact h1
      · exact extends_trans h1 (ih nd ne u)

theorem tryLoop_extends : ∀ (fuel : Nat) (first : Strategy) (rest : List Strategy)
    (s : StrategySolver), Extends s (tryLoop fuel first rest s) := by
  intro fuel
  induction fuel with
  | zero => intro _ _ s; exact extends_rfl s
  | succ f ih =>
    intro first rest s
    unfold tryLoop
    split
    · exact extends_rfl s
    · dsimp only
      split
      · next u heq =>
        exact extends_fst_of_eq heq (deduce_extends first false s)
      · next u heq =>
        have h1 : Extends s u := extends_fst_of_eq heq (deduce_extends first false s)
        split
        · exact extends_trans h1 (ih first rest u)
        · split
          · next v heq2 =>
            exact extends_trans
              (extends_trans h1 (extends_fst_of_eq heq2 (restLoop_extends rest _ _ u)))
              (ih first rest v)
          · next v heq2 =>
            exact extends_trans h1 (extends_fst_of_eq heq2 (restLoop_extends rest _ _ u))

theorem try_solve_extends (s : StrategySolver) (strategies : List Strategy) :
    Extends s (try_solve s strategies).2 := by
  cases strategies with
  | nil => exact extends_rfl s
  | cons first rest => exact tryLoop_extends _ first rest s

/-! ## C3: the return value of `try_solve` -/

/-- C3: `try_solve` returns `true` exactly when the call strictly grew
`deduced_entries` or `eliminated_entries`.  The lexicographic tuple
comparison against the lengths captured on entry is equivalent to this
because the logs are append-only across the strategy loop. -/
theorem try_solve_true_iff (s : StrategySolver) (strategies : List Strategy) :
    ((try_solve s strategies).1 = true ↔
      (s.deduced_entries.length < (try_solve s strategies).2.deduced_entries.length ∨
        s.eliminated_entries.length <
          (try_solve s strategies).2.eliminated_entries.length)) := by
  cases strategies with
  | nil =>
    rw [try_solve_nil]
    constructor
    · intro h; exact Bool.noConfusion h
    · intro h
      dsimp only at h
      rcases h with h | h <;> omega
  | cons first rest =>
    obtain ⟨⟨l1, h1⟩, ⟨l2, h2⟩, _, _⟩ :=
      tryLoop_extends (s.deduced_entries.length + s.eliminated_entries.length + 2048)
        first rest s
    simp only [try_solve]
    rw [h1, h2, List.length_append, List.length_append]
    unfold lexLt
    simp only [Bool.or_eq_true, Bool.and_eq_true, Nat.blt_eq, Nat.beq_eq]
    omega

/-! ## C6 (amended): monotonicity of `n_solved` -/

/-- C6 (amended): `n_solved` never decreases across the public operations
(`to_sudoku`, `insert_candidate`, `grid_state`, `cell_state`, `try_solve`,
and hence `solve`).  The claimed equality `n_solved = #{c : grid[c] ≠ 0}`
does *not* hold after every public operation: operations that do not refresh
the placement caches (such as `to_sudoku` and `insert_candidate`) leave
`n_solved` lagging behind the written grid. -/
theorem n_solved_monotone (s : StrategySolver) (c : Candidate)
    (strategies : List Strategy) (cell : Nat) :
    s.n_solved ≤ (to_sudoku s).2.n_solved ∧
    s.n_solved ≤ (insert_candidate s c).2.n_solved ∧
    s.n_solved ≤ (grid_state s).2.n_solved ∧
    s.n_solved ≤ (cell_state s cell).2.n_solved ∧
    s.n_solved ≤ (try_solve s strategies).2.n_solved :=
  ⟨Nat.le_refl _,
    (push_new_candidate_extends (update_grid s) c (Deduction.Given c)).2.2.2,
    (update_cell_poss_house_solved_extends false (update_grid s)).2.2.2,
    (update_cell_poss_house_solved_extends false (update_grid s)).2.2.2,
    (try_solve_extends s strategies).2.2.2⟩

/-- C6 counterexample: after the public operation `to_sudoku` on the solver
built from the one-given puzzle, the returned grid has one non-zero cell but
`n_solved` is still 0 — the claimed equality fails. -/
theorem to_sudoku_n_solved_lag :
    ((to_sudoku (from_sudoku p0)).1.filter (fun d => d != 0)).length = 1 ∧
    (to_sudoku (from_sudoku p0)).2.n_solved = 0 := by
  constructor
  · decide
  · rfl

/-! ## C1: what `solve` returns -/

/-- C1 (amended): after the strategy pass, `solve` returns `Ok` exactly when
the solver's `n_solved` counter has reached 81 (`is_solved`); on both
branches the payload carries the current grid with every entry of
`deduced_entries` written into it (cell by cell, the digit of the last log
entry naming the cell) together with the deduction, placement and
elimination logs. -/
theorem solve_spec (s : StrategySolver) (strategies : List Strategy) :
    ((∃ r, solve s strategies = .ok r) ↔ (try_solve s strategies).2.n_solved = 81) ∧
    (solveOutput (solve s strategies)).2 = into_deductions (try_solve s strategies).2 ∧
    (solveOutput (solve s strategies)).1.length =
      (try_solve s strategies).2.grid.state.length ∧
    ∀ i, i < (try_solve s strategies).2.grid.state.length →
      (solveOutput (solve s strategies)).1.getD i 0 =
        lastPlacedDigit (try_solve s strategies).2.deduced_entries i
          ((try_solve s strategies).2.grid.state.getD i 0) := by
  have hout : solveOutput (solve s strategies) =
      ((update_grid (try_solve s strategies).2).grid.state,
        into_deductions (update_grid (try_solve s strategies).2)) := by
    unfold solve
    dsimp only
    split
    · rfl
    · rfl
  refine ⟨⟨?_, ?_⟩, ?_, ?_, ?_⟩
  · rintro ⟨r, hr⟩
    unfold solve at hr
    dsimp only at hr
    split at hr
    · next h =>
      have h2 : (update_grid (try_solve s strategies).2).n_solved = 81 := by
        simpa [is_solved] using h
      exact h2
    · exact Except.noConfusion hr
  · intro h
    have hs : is_solved (update_grid (try_solve s strategies).2) = true := by
      unfold is_solved
      have he : (update_grid (try_solve s strategies).2).n_solved = 81 := h
      rw [he]
      rfl
    unfold solve
    dsimp only
    rw [if_pos hs]
    exact ⟨_, rfl⟩
  · rw [hout]
    rfl
  · rw [hout]
    exact writeEntries_length _ _
  · intro i hi
    rw [hout]
    exact writeEntries_getD _ _ i hi

theorem solve_spec_witness :
    0 < (try_solve (from_sudoku p0) []).2.grid.state.length ∧
    (solveOutput (solve (from_sudoku p0) [])).1.getD 0 0 =
      lastPlacedDigit (try_solve (from_sudoku p0) []).2.deduced_entries 0
        ((try_solve (from_sudoku p0) []).2.grid.state.getD 0 0) :=
  ⟨by decide, (solve_spec (from_sudoku p0) []).2.2.2 0 (by decide)⟩

/-- C1 counterexample: on a solver built from a complete valid sudoku grid,
with an empty strategy list, every one of the 81 cells of the returned grid
is solved (and the grid is a valid solution), yet `solve` returns `Err` —
because the decision is `n_solved == 81`, and `n_solved` still lags at 0. -/
theorem solve_err_on_full_grid :
    fullGrid.all (fun d => d != 0) = true ∧
    (solveOutput (solve (from_sudoku fullGrid) [])).1 = fullGrid ∧
    (solve (from_sudoku fullGrid) []).isOk = false := by
  refine ⟨by decide, by decide, by decide⟩

/-! ## The non-find-singles cache refresh never touches the logs (towards C7) -/

theorem frame_andThen {s : StrategySolver} {r : StrategySolver × Bool}
    {k : StrategySolver → StrategySolver × Bool}
    (h1 : r.1.deduced_entries = s.deduced_entries ∧ r.1.deductions = s.deductions)
    (h2 : ∀ t, (k t).1.deduced_entries = t.deduced_entries ∧
      (k t).1.deductions = t.deductions) :
    (andThen r k).1.deduced_entries = s.deduced_entries ∧
    (andThen r k).1.deductions = s.deductions := by
  unfold andThen
  split
  · exact ⟨((h2 r.1).1).trans h1.1, ((h2 r.1).2).trans h1.2⟩
  · exact h1

theorem remove_impossibilities_false_frame (s : StrategySolver) (cell imp : Nat) :
    (remove_impossibilities s cell imp false).1.deduced_entries = s.deduced_entries ∧
    (remove_impossibilities s cell imp false).1.deductions = s.deductions := by
  unfold remove_impossibilities
  dsimp only
  rw [if_neg (by exact Bool.noConfusion)]
  split
  · exact ⟨rfl, rfl⟩
  · exact ⟨rfl, rfl⟩

theorem elimApplyLoop_false_frame (elims : List Candidate) :
    ∀ s : StrategySolver,
    (elimApplyLoop elims false s).1.deduced_entries = s.deduced_entries ∧
    (elimApplyLoop elims false s).1.deductions = s.deductions := by
  induction elims with
  | nil => intro s; exact ⟨rfl, rfl⟩
  | cons c rest ih =>
    intro s
    exact frame_andThen (remove_impossibilities_false_frame s c.cell c.digit_set)
      (fun t => ih t)

theorem batchConsumeLoop_frame : ∀ (fuel : Nat) (s : StrategySolver),
    (batchConsumeLoop fuel s).1.deduced_entries = s.deduced_entries ∧
    (batchConsumeLoop fuel s).1.deductions = s.deductions := by
  intro fuel
  induction fuel with
  | zero => intro s; exact ⟨rfl, rfl⟩
  | succ f ih =>
    intro s
    unfold batchConsumeLoop
    split
    · exact ⟨rfl, rfl⟩
    · dsimp only
      split
      · exact ih _
      · split
        · exact ⟨rfl, rfl⟩
        · exact ih _

theorem batchCellsLoop_false_frame (cells : List Nat) :
    ∀ s : StrategySolver,
    (batchCellsLoop cells false s).1.deduced_entries = s.deduced_entries ∧
    (batchCellsLoop cells false s).1.deductions = s.deductions := by
  induction cells with
  | nil => intro s; exact ⟨rfl, rfl⟩
  | cons cell rest ih =>
    intro s
    unfold batchCellsLoop
    split
    · exact ih s
    · exact frame_andThen (remove_impossibilities_false_frame _ _ _) (fun t => ih t)

theorem batch_insert_entries_false_frame (s : StrategySolver) :
    (batch_insert_entries false s).1.deduced_entries = s.deduced_entries ∧
    (batch_insert_entries false s).1.deductions = s.deductions :=
  frame_andThen (batchConsumeLoop_frame _ s) (fun t => batchCellsLoop_false_frame _ t)

theorem singlyNeighborsLoop_false_frame (cells : List Nat) (mask : Nat) :
    ∀ s : StrategySolver,
    (singlyNeighborsLoop cells mask false s).1.deduced_entries = s.deduced_entries ∧
    (singlyNeighborsLoop cells mask false s).1.deductions = s.deductions := by
  induction cells with
  | nil => intro s; exact ⟨rfl, rfl⟩
  | cons cell rest ih =>
    intro s
    unfold singlyNeighborsLoop
    split
    · exact frame_andThen (remove_impossibilities_false_frame _ _ _) (fun t => ih t)
    · exact ih s

theorem singlyLoop_false_frame : ∀ (fuel : Nat) (s : StrategySolver),
    (singlyLoop fuel false s).1.deduced_entries = s.deduced_entries ∧
    (singlyLoop fuel false s).1.deductions = s.deductions := by
  intro fuel
  induction fuel with
  | zero => intro s; exact ⟨rfl, rfl⟩
  | succ f ih =>
    intro s
    unfold singlyLoop
    split
    · exact ⟨rfl, rfl⟩
    · dsimp only
      split
      · exact ih _
      · split
        · exact ⟨rfl, rfl⟩
        · refine frame_andThen (singlyNeighborsLoop_false_frame _ _ _) (fun t => ?_)
          dsimp only
          split
          · exact ⟨rfl, rfl⟩
          · exact ih t

theorem insertLoop_false_frame : ∀ (fuel : Nat) (s : StrategySolver),
    (insertLoop fuel false s).1.deduced_entries = s.deduced_entries ∧
    (insertLoop fuel false s).1.deductions = s.deductions := by
  intro fuel
  induction fuel with
  | zero => intro s; exact ⟨rfl, rfl⟩
  | succ f ih =>
    intro s
    unfold insertLoop
    split
    · exact ⟨rfl, rfl⟩
    all_goals first
      | exact frame_andThen (singlyLoop_false_frame _ s) (fun t => ih t)
      | exact frame_andThen (batch_insert_entries_false_frame s) (fun t => ih t)

theorem insert_entries_false_frame (s : StrategySolver) :
    (insert_entries false s).1.deduced_entries = s.deduced_entries ∧
    (insert_entries false s).1.deductions = s.deductions :=
  frame_andThen (batch_insert_entries_false_frame s) (fun t => insertLoop_false_frame _ t)

theorem update_cell_poss_house_solved_false_frame (s : StrategySolver) :
    (update_cell_poss_house_solved false s).1.deduced_entries = s.deduced_entries ∧
    (update_cell_poss_house_solved false s).1.deductions = s.deductions := by
  refine frame_andThen (elimApplyLoop_false_frame _ s) (fun t => ?_)
  exact insert_entries_false_frame _

/-! ## C7: the duplicated append of discovered singles -/

theorem push_new_candidate_branches (s : StrategySolver) (c : Candidate)
    (strat : Deduction) :
    push_new_candidate s c strat = (s, true) ∨
    push_new_candidate s c strat = (s, false) ∨
    push_new_candidate s c strat =
      ({ s with
          grid := { s.grid with state := s.grid.state.set c.cell c.digit }
          deduced_entries := s.deduced_entries ++ [c]
          deductions := s.deductions ++ [strat] }, true) := by
  unfold push_new_candidate
  dsimp only
  split
  · exact Or.inl rfl
  · split
    · exact Or.inr (Or.inr rfl)
    · exact Or.inr (Or.inl rfl)

theorem count_le_of_extends {s t : StrategySolver} (h : Extends s t) (c : Candidate) :
    s.deduced_entries.count c ≤ t.deduced_entries.count c := by
  obtain ⟨⟨l, hl⟩, _, _, _⟩ := h
  rw [hl, List.count_append]
  omega

/-- The scan loop of `find_naked_singles`: any naked single it records in the
`deductions` log lands in `deduced_entries` at least twice (once through
`push_new_candidate`, once through the direct `push`). -/
theorem nsScan_count (saf : Bool) : ∀ (items : List (Nat × Nat)) (s : StrategySolver)
    (c : Candidate),
    Deduction.NakedSingles c ∈ (nsScan items saf s).1.deductions →
    Deduction.NakedSingles c ∉ s.deductions →
    s.deduced_entries.count c + 2 ≤ (nsScan items saf s).1.deduced_entries.count c := by
  intro items
  induction items with
  | nil => intro s c hmem hnot; exact absurd hmem hnot
  | cons item rest ih =>
    intro s c hmem hnot
    rcases item with ⟨cell, poss⟩
    unfold nsScan at hmem ⊢
    dsimp only at hmem ⊢
    rcases hu : (match setUnique poss with | .ok v => v | .error _ => none) with _ | idx
    · rw [hu] at hmem ⊢
      exact ih s c hmem hnot
    · rw [hu] at hmem ⊢
      dsimp only at hmem ⊢
      rcases push_new_candidate_branches s ⟨cell, idx + 1⟩
          (Deduction.NakedSingles ⟨cell, idx + 1⟩) with hp | hp | hp
      · -- cell already held the digit: only the direct push fires
        rw [hp] at hmem ⊢
        unfold andThen at hmem ⊢
        dsimp only at hmem ⊢
        rw [if_pos rfl] at hmem ⊢
        by_cases hsaf : saf = true
        · rw [if_pos hsaf] at hmem
          exact absurd hmem hnot
        · rw [if_neg hsaf] at hmem ⊢
          have hge := ih _ c hmem hnot
          dsimp only at hge
          rw [List.count_append] at hge
          omega
      · -- conflict: the scan aborts with the state unchanged
        rw [hp] at hmem ⊢
        unfold andThen at hmem ⊢
        dsimp only at hmem ⊢
        rw [if_neg (by decide : ¬(false = true))] at hmem ⊢
        exact absurd hmem hnot
      · -- fresh placement: helper push plus direct push
        rw [hp] at hmem ⊢
        unfold andThen at hmem ⊢
        dsimp only at hmem ⊢
        rw [if_pos rfl] at hmem ⊢
        by_cases hsaf : saf = true
        · rw [if_pos hsaf] at hmem ⊢
          dsimp only at hmem ⊢
          rcases List.mem_append.mp hmem with hmem2 | hmem2
          · exact absurd hmem2 hnot
          · have hc : c = ⟨cell, idx + 1⟩ :=
              Deduction.NakedSingles.inj (List.mem_singleton.mp hmem2)
            subst hc
            rw [List.append_assoc, List.count_append, List.count_append,
              List.count_singleton', if_pos rfl]
        · rw [if_neg hsaf] at hmem ⊢
          by_cases hm2 : Deduction.NakedSingles c ∈
              s.deductions ++ [Deduction.NakedSingles ⟨cell, idx + 1⟩]
          · rcases List.mem_append.mp hm2 with hm3 | hm3
            · exact absurd hm3 hnot
            · have hc : c = ⟨cell, idx + 1⟩ :=
                Deduction.NakedSingles.inj (List.mem_singleton.mp hm3)
              subst hc
              refine Nat.le_trans ?_ (count_le_of_extends (nsScan_extends saf rest _) _)
              dsimp only
              rw [List.append_assoc, List.count_append, List.count_append,
                List.count_singleton', if_pos rfl]
          · have hge := ih _ c hmem hm2
            dsimp only at hge
            rw [List.count_append, List.count_append] at hge
            omega

/-- C7 (amended): it is the *naked*-singles routine that appends each
discovered single twice — once via `push_new_candidate` and once directly —
so every naked single newly recorded in the `deductions` log by a
`find_naked_singles` call occurs (at least) twice more in `deduced_entries`
than before the call.  (The hidden-singles routine pushes exactly once; see
the counterexample.) -/
theorem find_naked_singles_double_push (b : Bool) (s : StrategySolver) (c : Candidate)
    (hmem : Deduction.NakedSingles c ∈ (find_naked_singles b s).1.deductions)
    (hnot : Deduction.NakedSingles c ∉ s.deductions) :
    s.deduced_entries.count c + 2 ≤ (find_naked_singles b s).1.deduced_entries.count c := by
  unfold find_naked_singles at hmem ⊢
  have hfr1 := update_cell_poss_house_solved_false_frame s
  rcases hu1 : update_cell_poss_house_solved false s with ⟨s1, ok1⟩
  rw [hu1] at hfr1 hmem
  dsimp only at hfr1
  unfold andThen at hmem ⊢
  dsimp only at hmem ⊢
  cases ok1 with
  | false =>
    rw [if_neg (by decide : ¬(false = true))] at hmem
    exact absurd (hfr1.2 ▸ hmem) hnot
  | true =>
    rw [if_pos rfl] at hmem ⊢
    have hcount := nsScan_count b ((List.range 81).zip s1.cell_poss_digits.state) s1 c
    have hfr2 := update_cell_poss_house_solved_false_frame
      (nsScan ((List.range 81).zip s1.cell_poss_digits.state) b s1).1
    rcases hu2 : nsScan ((List.range 81).zip s1.cell_poss_digits.state) b s1 with ⟨s2, ok2⟩
    rw [hu2] at hcount hfr2 hmem
    dsimp only at hcount hfr2
    dsimp only at hmem ⊢
    cases ok2 with
    | false =>
      rw [if_neg (by decide : ¬(false = true))] at hmem ⊢
      dsimp only at hmem ⊢
      have hx := hcount hmem (fun h => hnot (hfr1.2 ▸ h))
      rw [hfr1.1] at hx
      exact hx
    | true =>
      rw [if_pos rfl] at hmem ⊢
      rw [hfr2.1]
      rw [hfr2.2] at hmem
      have hx := hcount hmem (fun h => hnot (hfr1.2 ▸ h))
      rw [hfr1.1] at hx
      exact hx

theorem find_naked_singles_double_push_witness :
    Deduction.NakedSingles ⟨0, 1⟩ ∈
      (find_naked_singles true (from_sudoku pNS)).1.deductions ∧
    (from_sudoku pNS).deduced_entries.count ⟨0, 1⟩ + 2 ≤
      (find_naked_singles true (from_sudoku pNS)).1.deduced_entries.count ⟨0, 1⟩ :=
  ⟨by decide,
    find_naked_singles_double_push true (from_sudoku pNS) ⟨0, 1⟩ (by decide) (by decide)⟩

/-- C7 counterexample: the *hidden*-singles routine appends a discovered
single exactly once.  On the concrete puzzle with a hidden single 1 in cell
0 of row 0, `find_hidden_singles` records the deduction and the candidate
occurs a single time in `deduced_entries` — not as a duplicate. -/
theorem find_hidden_singles_single_push :
    (find_hidden_singles true (from_sudoku pHS)).1.deductions =
      [Deduction.HiddenSingles ⟨0, 1⟩ 0] ∧
    (find_hidden_singles true (from_sudoku pHS)).1.deduced_entries.count ⟨0, 1⟩ = 1 := by
  constructor
  · decide
  · decide
